import Mathlib

/-!
Shallow embedding of the crawl UI layout engine (src/crawl-ref/source/ui.cc)
and proofs about its sizing and allocation algorithms.

Modelling conventions:
* C++ `int` extents (SizeReq fields, track sizes, child sizes) are modelled as
  `Nat`: every value these variables take in the engine is asserted or
  maintained nonnegative (ASSERT(extra >= 0), ASSERT(m_region[2] >= 0), ...),
  and subtractions that the code guards with an assertion become truncated
  subtraction together with an explicit hypothesis restating the assertion.
  Quantities that are genuinely signed in the code (the -1 prospective-width
  sentinel, viewport coordinates, region rectangles) are modelled as `Int`.
* The `float` arithmetic in `Box::layout_main_axis` and `Grid::layout_track`
  is modelled as exact rational arithmetic truncated to an integer on
  assignment, which on the nonnegative integral operands appearing there is
  floor division on `Nat`.
* The `while` loop of `Box::layout_main_axis` is modelled with an explicit
  round counter (`flexLoop`); the engine's loop has none, and the proofs for
  claim C9 show the modelled bound (`extra + 1` rounds) is never reached:
  the loop always exits through one of its two guards, and adding more
  rounds does not change the result.
-/

namespace UI

/-- The `Widget::Direction` axis parameter: `HORZ = 0`, `VERT = 1` in the
source; `dim ? a : b` becomes a match on this type. -/
inductive Direction where
  | HORZ
  | VERT
  deriving DecidableEq, Repr

/-- `SizeReq { int min, nat; }`: minimum and natural extent along one axis. -/
structure SizeReq where
  min : Nat
  nat : Nat
  deriving DecidableEq, Repr

/-- Modelled from the spec: the `Widget::Align` enumeration from the missing
header ui.h, `{inherit, start, center, end, stretch}` with `inherit` the
zero value (the source tests `child->align_self ?` for non-inherit and
compares against `STRETCH`). -/
inductive Align where
  | UNSET
  | START
  | END
  | CENTER
  | STRETCH
  deriving DecidableEq, Repr

/-- Sum of the `min` fields of the per-child size requests, as accumulated by
the first loop of `Box::layout_main_axis` (`extra -= ch_psz[i].min`). -/
def sumMin (ch : List (SizeReq × Nat)) : Nat :=
  (ch.map (fun c => c.1.min)).sum

/-- Sum of `flex_grow` over the not-yet-saturated children: the first inner
loop of each round of `Box::layout_main_axis`
(`sum_flex_grow += ch_sz[i] < ch_psz[i].nat ? flex_grow : 0`).
State entries are `(psz, flex_grow, current size)`. -/
def sumFlexUnsat (st : List (SizeReq × Nat × Nat)) : Nat :=
  (st.map (fun c => if c.2.2 < c.1.nat then c.2.1 else 0)).sum

/-- One distribution round of `Box::layout_main_axis`: for each child compute
`efg`, `ch_extra = extra * efg / sum_flex_grow` (float arithmetic on integral
operands, truncated: floor division), `taken = min(ch_extra, nat - cur)`,
grow the child by `taken` and accumulate `ch_extra - taken` into the
remainder. Returns the updated state and the remainder. -/
def flexDistribute (extra S : Nat) :
    List (SizeReq × Nat × Nat) → List (SizeReq × Nat × Nat) × Nat
  | [] => ([], 0)
  | c :: rest =>
      let efg := if c.2.2 < c.1.nat then c.2.1 else 0
      let ch_extra := extra * efg / S
      let taken := Nat.min ch_extra (c.1.nat - c.2.2)
      let p := flexDistribute extra S rest
      ((c.1, c.2.1, c.2.2 + taken) :: p.1, (ch_extra - taken) + p.2)

/-- The `while (extra > 0)` loop of `Box::layout_main_axis`, with an explicit
round counter: exit when the leftover is zero or no unsaturated child has
positive `flex_grow` (`if (!sum_flex_grow) break`), otherwise run one
distribution round and continue with the carried remainder. -/
def flexLoop (fuel : Nat) (st : List (SizeReq × Nat × Nat)) (extra : Nat) :
    List (SizeReq × Nat × Nat) × Nat :=
  match fuel with
  | 0 => (st, extra)
  | f + 1 =>
      if extra = 0 then (st, extra)
      else
        let S := sumFlexUnsat st
        if S = 0 then (st, extra)
        else
          let p := flexDistribute extra S st
          flexLoop f p.1 p.2

/-- `Box::layout_main_axis`, final loop state: children start at their
minimums, `extra = main_sz - sum of minimums` (ASSERT(extra >= 0)), then the
distribution loop runs; `extra + 1` rounds always suffice (claim C9). -/
def layoutMainAxisRun (ch : List (SizeReq × Nat)) (main_sz : Nat) :
    List (SizeReq × Nat × Nat) × Nat :=
  let st := ch.map (fun c => (c.1, c.2, c.1.min))
  let extra := main_sz - sumMin ch
  flexLoop (extra + 1) st extra

/-- `Box::layout_main_axis`: the resulting child sizes on the main axis.
Children are passed as `(size request, flex_grow)` pairs, pairing the
`ch_psz` argument with the `m_children[i]->flex_grow` member reads. -/
def layout_main_axis (ch : List (SizeReq × Nat)) (main_sz : Nat) : List Nat :=
  ((layoutMainAxisRun ch main_sz).1).map (fun c => c.2.2)

/-- `Box::layout_cross_axis`: each child gets the whole cross budget when
`child->align_self == STRETCH ? true : align_items == STRETCH`, and
`min(max(ch_psz[i].min, cross_sz), ch_psz[i].nat)` otherwise. Children are
passed as `(size request, align_self)` pairs. -/
def layout_cross_axis (align_items : Align) :
    List (SizeReq × Align) → Nat → List Nat
  | [], _ => []
  | c :: rest, cross_sz =>
      (if c.2 = Align.STRETCH ∨ align_items = Align.STRETCH then cross_sz
       else Nat.min (Nat.max c.1.min cross_sz) c.1.nat) ::
        layout_cross_axis align_items rest cross_sz

/-- The aggregation loop shared by `Box::_get_preferred_size` and
`Box::_allocate_region`: along the main axis min/nat are summed across
children, along the cross axis they are maximised
(`r.min = main_axis ? r.min + c.min : max(r.min, c.min)`). -/
def aggSR (main_axis : Bool) (l : List SizeReq) : SizeReq :=
  l.foldl
    (fun r c =>
      if main_axis then ⟨r.min + c.min, r.nat + c.nat⟩
      else ⟨Nat.max r.min c.min, Nat.max r.nat c.nat⟩)
    ⟨0, 0⟩

/-- A Box child as the layout routines see it: its `flex_grow` and
`align_self` members, its horizontal size request
(`get_preferred_size(HORZ, -1)`), and its vertical size request as a function
of the width it was assigned (`get_preferred_size(VERT, cw[i])`). -/
structure BoxChild where
  flex_grow : Nat
  align_self : Align
  sr_horz : SizeReq
  sr_vert_at : Nat → SizeReq

/-- The width resolution step shared by `Box::_get_preferred_size` (with the
prospective width as budget) and `Box::_allocate_region` (with
`m_region[2]`): `horz ? layout_main_axis(sr, w) : layout_cross_axis(sr, w)`. -/
def boxWidths (horz : Bool) (align_items : Align) (cs : List BoxChild)
    (w : Nat) : List Nat :=
  if horz then layout_main_axis (cs.map (fun c => (c.sr_horz, c.flex_grow))) w
  else layout_cross_axis align_items (cs.map (fun c => (c.sr_horz, c.align_self))) w

/-- The per-child vertical size requests re-measured at the resolved widths
(`sr[i] = m_children[i]->get_preferred_size(VERT, cw[i])`). -/
def boxVertSRs (cs : List BoxChild) (cw : List Nat) : List SizeReq :=
  List.zipWith (fun c wid => c.sr_vert_at wid) cs cw

/-- The height resolution step of `Box::_allocate_region`:
`horz ? layout_cross_axis(sr, m_region[3]) : layout_main_axis(sr, m_region[3])`
on the re-measured vertical requests. -/
def boxHeights (horz : Bool) (align_items : Align) (cs : List BoxChild)
    (h : Nat) (cw : List Nat) : List Nat :=
  if horz then
    layout_cross_axis align_items
      (List.zipWith (fun c wid => (c.sr_vert_at wid, c.align_self)) cs cw) h
  else
    layout_main_axis
      (List.zipWith (fun c wid => (c.sr_vert_at wid, c.flex_grow)) cs cw) h

/-- `Box::_get_preferred_size`: for the horizontal axis aggregate the
children's horizontal requests (`main_axis = dim == !horz`, so sum for a
horizontal box, max for a vertical one); for the vertical axis first resolve
the actual widths against the prospective width, re-measure vertically at
those widths, and aggregate. -/
def boxPref (horz : Bool) (align_items : Align) (cs : List BoxChild) :
    Direction → Nat → SizeReq
  | Direction.HORZ, _ => aggSR horz (cs.map (fun c => c.sr_horz))
  | Direction.VERT, prosp_width =>
      aggSR (!horz) (boxVertSRs cs (boxWidths horz align_items cs prosp_width))

example :
    layout_main_axis [(⟨10, 100⟩, 1), (⟨20, 20⟩, 0), (⟨30, 100⟩, 1)] 100 =
      [30, 20, 50] := by decide

example : layout_main_axis [(⟨0, 10⟩, 1), (⟨0, 10⟩, 1)] 1 = [0, 0] := by decide

example :
    layout_cross_axis Align.STRETCH [(⟨5, 10⟩, Align.CENTER)] 20 = [20] := by
  decide

/-! ## Stack overlay layout -/

/-- A Stack child as `Stack::_allocate_region` sees it: its horizontal size
request (`get_preferred_size(HORZ, -1)`) and its vertical size request as a
function of the resolved width. -/
structure StackChild where
  sr_horz : SizeReq
  sr_vert_at : Nat → SizeReq

/-- The per-child extent computation of `Stack::_allocate_region`:
`cr[2] = min(max(pw.min, m_region[2]), pw.nat)`, then
`ph = get_preferred_size(VERT, cr[2])` and
`cr[3] = min(max(ph.min, m_region[3]), ph.nat)`. -/
def stackChildSize (c : StackChild) (region_w region_h : Nat) : Nat × Nat :=
  let w := Nat.min (Nat.max c.sr_horz.min region_w) c.sr_horz.nat
  let ph := c.sr_vert_at w
  (w, Nat.min (Nat.max ph.min region_h) ph.nat)

/-! ## Grid track layout -/

/-- A Grid child: its two size-request views together with its
`child_info { pos, span }` record. -/
structure GridChild where
  sr_horz : SizeReq
  sr_vert_at : Nat → SizeReq
  pos : Nat × Nat
  span : Nat × Nat

/-- `Grid::init_track_info`: the number of columns is
`max over children of (pos[0] + span[0])`. -/
def n_cols (cs : List GridChild) : Nat :=
  cs.foldl (fun n c => Nat.max n (c.pos.1 + c.span.1)) 0

/-- `Grid::init_track_info`: the number of rows is
`max over children of (pos[1] + span[1])`. -/
def n_rows (cs : List GridChild) : Nat :=
  cs.foldl (fun n c => Nat.max n (c.pos.2 + c.span.2)) 0

/-- Modelled from the spec: the width component of `Grid::get_tracks_region`
(defined in the missing header ui.h): "extent = sum of its spanned tracks'
sizes" — the sum of `len` track sizes starting at track `start`. -/
def spanSum (sizes : List Nat) (start len : Nat) : Nat :=
  ((sizes.drop start).take len).sum

/-- The in-place `track[cp[dim]].sr` max-update of
`Grid::compute_track_sizereqs`:
`s.min = max(s.min, c.min); s.nat = max(s.nat, c.nat)` at one index. -/
def bumpTrack (c : SizeReq) : List SizeReq → Nat → List SizeReq
  | [], _ => []
  | t :: ts, 0 => ⟨Nat.max t.min c.min, Nat.max t.nat c.nat⟩ :: ts
  | t :: ts, n + 1 => t :: bumpTrack c ts n

/-- The child loop of `Grid::compute_track_sizereqs`: a child updates the
track it sits on only when `cs[0] == 1 && cs[1] == 1` (items spanning
multiple rows or columns do not contribute), via `bumpTrack`. `msr c` is the
measured request `get_preferred_size(dim, prosp_width)` and `idx c` the
track index `cp[dim]`. -/
def aggTracks (msr : GridChild → SizeReq) (idx : GridChild → Nat) :
    List SizeReq → List GridChild → List SizeReq
  | tracks, [] => tracks
  | tracks, c :: rest =>
      aggTracks msr idx
        (if c.span = (1, 1) then bumpTrack (msr c) tracks (idx c) else tracks)
        rest

/-- The per-child measurement of `Grid::compute_track_sizereqs`:
`get_preferred_size(dim, prosp_width)` where, for the row axis, the
prospective width is the width of the region spanned by the child's columns
(`get_tracks_region(...)[2]`), computed from the already resolved column
sizes. -/
def trackMsr (dim : Direction) (colSizes : List Nat) : GridChild → SizeReq :=
  fun c =>
    match dim with
    | Direction.HORZ => c.sr_horz
    | Direction.VERT => c.sr_vert_at (spanSum colSizes c.pos.1 c.span.1)

/-- The track a child sits on along an axis: `cp[dim]`. -/
def trackIdx (dim : Direction) : GridChild → Nat :=
  fun c =>
    match dim with
    | Direction.HORZ => c.pos.1
    | Direction.VERT => c.pos.2

/-- `Grid::compute_track_sizereqs(dim)`: reset every track to `{0,0}` and run
the child loop. -/
def compute_track_sizereqs (dim : Direction) (colSizes : List Nat)
    (cs : List GridChild) (n : Nat) : List SizeReq :=
  aggTracks (trackMsr dim colSizes) (trackIdx dim)
    (List.replicate n ⟨0, 0⟩) cs

/-- `Grid::layout_track`: `extra = size - sr.min` (ASSERT(extra >= 0), with
`sr` the aggregated total), divided by the flex sum only when that sum is
positive (`extra = sum_flex_grow > 0 ? extra/sum_flex_grow : 0`), then each
track resolves to `sr.min + extra * flex_grow` — float arithmetic truncated
on assignment, i.e. `min + (size - total min) * flex / sum_flex` with floor
division. Tracks are `(aggregated request, flex_grow)` pairs. -/
def layout_track (tracks : List (SizeReq × Nat)) (sr : SizeReq) (size : Nat) :
    List Nat :=
  let extra := size - sr.min
  let S := (tracks.map (fun t => t.2)).sum
  tracks.map (fun t => t.1.min + (if S = 0 then 0 else extra * t.2 / S))

/-- Column-track aggregation of `Grid::_get_preferred_size`
(`compute_track_sizereqs(HORZ)`); the horizontal pass needs no resolved
column sizes. -/
def gridColAgg (cs : List GridChild) : List SizeReq :=
  compute_track_sizereqs Direction.HORZ [] cs (n_cols cs)

/-- The total width request of the grid: per-column min/nat summed. -/
def gridWsr (cs : List GridChild) : SizeReq :=
  aggSR true (gridColAgg cs)

/-- Resolved column sizes: `layout_track(HORZ, w_sr, prosp_width)`. The
per-track `flex_grow` weights live in the missing header's track records and
are passed in as a list. -/
def gridColSizes (cs : List GridChild) (colFlex : List Nat) (w : Nat) :
    List Nat :=
  layout_track ((gridColAgg cs).zip colFlex) (gridWsr cs) w

/-- Row-track aggregation (`compute_track_sizereqs(VERT)`) at the resolved
column sizes. -/
def gridRowAgg (cs : List GridChild) (colFlex : List Nat) (w : Nat) :
    List SizeReq :=
  compute_track_sizereqs Direction.VERT (gridColSizes cs colFlex w) cs
    (n_rows cs)

/-- The total height request of the grid at prospective width `w`. -/
def gridHsr (cs : List GridChild) (colFlex : List Nat) (w : Nat) : SizeReq :=
  aggSR true (gridRowAgg cs colFlex w)

/-- Resolved row sizes in `Grid::_allocate_region`:
`layout_track(VERT, h_sr, m_region[3])`. -/
def gridRowSizes (cs : List GridChild) (colFlex rowFlex : List Nat)
    (w h : Nat) : List Nat :=
  layout_track ((gridRowAgg cs colFlex w).zip rowFlex) (gridHsr cs colFlex w) h

/-- The width of the cell rectangle `Grid::_allocate_region` passes to a
child's `allocate_region`: the sum of its spanned columns' resolved sizes. -/
def gridCellW (cs : List GridChild) (colFlex : List Nat) (w : Nat)
    (c : GridChild) : Nat :=
  spanSum (gridColSizes cs colFlex w) c.pos.1 c.span.1

/-- The height of the cell rectangle passed to a child's `allocate_region`:
the sum of its spanned rows' resolved sizes. -/
def gridCellH (cs : List GridChild) (colFlex rowFlex : List Nat) (w h : Nat)
    (c : GridChild) : Nat :=
  spanSum (gridRowSizes cs colFlex rowFlex w h) c.pos.2 c.span.2

/-! ## The Widget sizing protocol with its per-axis cache -/

/-- `ui_expand_sz = 0xffffff`: the sentinel meaning "claim all available
slack". -/
def ui_expand_sz : Nat := 0xffffff

/-- A rectangle `i4 {x, y, w, h}`. -/
structure I4 where
  x : Int
  y : Int
  w : Int
  h : Int
  deriving DecidableEq, Repr

/-- A widget together with its mutable sizing state. `margin0 .. margin3`
are the top/right/bottom/left margins (`margin[0..3]` in the source);
`hook` is the widget-kind-specific measurement hook `_get_preferred_size`,
modelled as a pure function of the axis and the (margin-adjusted)
prospective width — between mutations its results are deterministic. The
placement hook `_allocate_region` of this abstract widget is the default
no-op, so `allocate_region` only stores the region. -/
structure Widget where
  margin0 : Nat
  margin1 : Nat
  margin2 : Nat
  margin3 : Nat
  flex_grow : Nat
  align_self : Align
  expand_h : Bool
  expand_v : Bool
  shrink_h : Bool
  shrink_v : Bool
  cached_sr_valid_h : Bool
  cached_sr_valid_v : Bool
  cached_sr_h : SizeReq
  cached_sr_v : SizeReq
  cached_sr_pw : Int
  m_region : I4
  hook : Direction → Int → SizeReq

/-- `Widget::get_preferred_size(dim, prosp_width)` (precondition:
`(dim == HORZ) == (prosp_width == -1)`). Serve the cached value when
`cached_sr_valid[dim] && (!dim || cached_sr_pw == prosp_width)`; otherwise
subtract the left/right margins from the prospective width, run the
measurement hook (ASSERT(ret.min <= ret.nat)), add this axis's margins to
both fields, apply expand/shrink (ASSERT(!(expand && shrink))), clamp `nat`
to `ui_expand_sz`, and fill the cache — storing, for the vertical axis, the
margin-adjusted `prosp_width` as the cache key (the source reassigns
`prosp_width` before the store). Returns the result and the updated
widget. -/
def Widget.get_preferred_size (wg : Widget) (dim : Direction)
    (prosp_width : Int) : SizeReq × Widget :=
  let valid := match dim with
    | Direction.HORZ => wg.cached_sr_valid_h
    | Direction.VERT => wg.cached_sr_valid_v
  if valid && (dim == Direction.HORZ || wg.cached_sr_pw == prosp_width) then
    ((match dim with
      | Direction.HORZ => wg.cached_sr_h
      | Direction.VERT => wg.cached_sr_v), wg)
  else
    let pw := match dim with
      | Direction.HORZ => prosp_width
      | Direction.VERT => prosp_width - (wg.margin1 : Int) - (wg.margin3 : Int)
    let r0 := wg.hook dim pw
    let m := match dim with
      | Direction.HORZ => wg.margin1 + wg.margin3
      | Direction.VERT => wg.margin0 + wg.margin2
    let r1 : SizeReq := ⟨r0.min + m, r0.nat + m⟩
    let expand := match dim with
      | Direction.HORZ => wg.expand_h
      | Direction.VERT => wg.expand_v
    let shrink := match dim with
      | Direction.HORZ => wg.shrink_h
      | Direction.VERT => wg.shrink_v
    let r2 : SizeReq :=
      if expand then ⟨r1.min, ui_expand_sz⟩
      else if shrink then ⟨r1.min, r1.min⟩ else r1
    let r3 : SizeReq := ⟨r2.min, Nat.min r2.nat ui_expand_sz⟩
    match dim with
    | Direction.HORZ =>
        (r3, { wg with cached_sr_valid_h := true, cached_sr_h := r3 })
    | Direction.VERT =>
        (r3, { wg with cached_sr_valid_v := true, cached_sr_v := r3,
                       cached_sr_pw := pw })

/-- `Widget::allocate_region`: subtract the margins from the offered
rectangle and store it (ASSERT(m_region[2] >= 0), ASSERT(m_region[3] >= 0);
the default placement hook is a no-op). -/
def Widget.allocate_region (wg : Widget) (region : I4) : Widget :=
  { wg with m_region :=
      ⟨region.x + (wg.margin3 : Int), region.y + (wg.margin0 : Int),
       region.w - (wg.margin3 : Int) - (wg.margin1 : Int),
       region.h - (wg.margin0 : Int) - (wg.margin2 : Int)⟩ }

/-! ## The root driver -/

/-- `UIRoot`: viewport extent, resolved top-level region, the top-level
widget (a `Stack` in the source, here the abstract widget whose measurement
hook stands for `Stack::_get_preferred_size`), and the dirty flag. -/
structure UIRoot where
  m_w : Int
  m_h : Int
  m_region : I4
  m_root : Widget
  m_dirty : Bool

/-- `UIRoot::resize`: a no-op when the extent is unchanged, otherwise store
it and mark dirty. -/
def UIRoot.resize (r : UIRoot) (w h : Int) : UIRoot :=
  if w = r.m_w ∧ h = r.m_h then r
  else { r with m_w := w, m_h := h, m_dirty := true }

/-- `UIRoot::layout`, returning also whether the layout work ran: a no-op
when clean; when dirty, clear the flag, take
`width = max(horizontal min, m_w)`, measure vertically at that width, take
`height = max(vertical min, m_h)`, and allocate the root at
`{0, 0, width, height}` (the resolved `m_region` follows the USE_TILE_LOCAL
branch; the console branch stores `{0,0,m_w,m_h}` instead, which no claim
here mentions). -/
def UIRoot.layout (r : UIRoot) : UIRoot × Bool :=
  if r.m_dirty = false then (r, false)
  else
    let p1 := r.m_root.get_preferred_size Direction.HORZ (-1)
    let width : Int := max (p1.1.min : Int) r.m_w
    let p2 := p1.2.get_preferred_size Direction.VERT width
    let height : Int := max (p2.1.min : Int) r.m_h
    ({ r with m_dirty := false,
              m_region := ⟨0, 0, width, height⟩,
              m_root := p2.2.allocate_region ⟨0, 0, width, height⟩ }, true)

/-! ## Arithmetic and list helper lemmas -/

lemma add_div_le (a b S : Nat) : a / S + b / S ≤ (a + b) / S := by
  rcases Nat.eq_zero_or_pos S with hS | hS
  · simp [hS]
  · rw [Nat.le_div_iff_mul_le hS, Nat.add_mul]
    exact Nat.add_le_add (Nat.div_mul_le_self a S) (Nat.div_mul_le_self b S)

lemma sum_div_le (S : Nat) (l : List Nat) :
    (l.map (fun a => a / S)).sum ≤ l.sum / S := by
  induction l with
  | nil => simp
  | cons a l ih =>
      simp only [List.map_cons, List.sum_cons]
      exact le_trans (Nat.add_le_add_left ih (a / S)) (add_div_le a l.sum S)

lemma sum_map_add {α : Type} (l : List α) (f g : α → Nat) :
    (l.map (fun x => f x + g x)).sum = (l.map f).sum + (l.map g).sum := by
  induction l with
  | nil => simp
  | cons a l ih => simp only [List.map_cons, List.sum_cons, ih]; omega

lemma sum_sub_add {α : Type} (l : List α) (f g : α → Nat)
    (h : ∀ x ∈ l, g x ≤ f x) :
    (l.map (fun x => f x - g x)).sum + (l.map g).sum = (l.map f).sum := by
  induction l with
  | nil => simp
  | cons a l ih =>
      have ha := h a (List.mem_cons_self a l)
      have hl := ih (fun x hx => h x (List.mem_cons_of_mem a hx))
      simp only [List.map_cons, List.sum_cons]
      omega

lemma sum_map_mul_left {α : Type} (l : List α) (b : Nat) (f : α → Nat) :
    (l.map (fun x => b * f x)).sum = b * (l.map f).sum := by
  induction l with
  | nil => simp
  | cons a l ih =>
      simp only [List.map_cons, List.sum_cons, ih, Nat.mul_add]

/-! ## Properties of the flex-distribution round -/

/-- The effective flex weight of one loop state entry:
`ch_sz[i] < ch_psz[i].nat ? m_children[i]->flex_grow : 0`. -/
def efgOf (c : SizeReq × Nat × Nat) : Nat :=
  if c.2.2 < c.1.nat then c.2.1 else 0

/-- `ch_extra` for one entry. -/
def cheOf (extra S : Nat) (c : SizeReq × Nat × Nat) : Nat :=
  extra * efgOf c / S

/-- `taken` for one entry. -/
def takenOf (extra S : Nat) (c : SizeReq × Nat × Nat) : Nat :=
  Nat.min (cheOf extra S c) (c.1.nat - c.2.2)

lemma sumFlexUnsat_eq (st : List (SizeReq × Nat × Nat)) :
    sumFlexUnsat st = (st.map efgOf).sum := rfl

lemma flexDistribute_eq (extra S : Nat) (st : List (SizeReq × Nat × Nat)) :
    flexDistribute extra S st =
      (st.map (fun c => (c.1, c.2.1, c.2.2 + takenOf extra S c)),
       (st.map (fun c => cheOf extra S c - takenOf extra S c)).sum) := by
  induction st with
  | nil => simp [flexDistribute]
  | cons c rest ih =>
      simp [flexDistribute, ih, efgOf, cheOf, takenOf]

lemma sum_che_le (extra S : Nat) (st : List (SizeReq × Nat × Nat))
    (h : (st.map efgOf).sum ≤ S) :
    (st.map (cheOf extra S)).sum ≤ extra := by
  have h1 : st.map (cheOf extra S) =
      (st.map (fun c => extra * efgOf c)).map (fun a => a / S) := by
    rw [List.map_map]
    rfl
  have h2 : ((st.map (fun c => extra * efgOf c)).map (fun a => a / S)).sum ≤
      (st.map (fun c => extra * efgOf c)).sum / S :=
    sum_div_le S _
  rw [h1]
  refine le_trans h2 ?_
  rw [sum_map_mul_left]
  rcases Nat.eq_zero_or_pos S with hS | hS
  · simp [hS]
  · calc extra * (st.map efgOf).sum / S
        ≤ extra * S / S := Nat.div_le_div_right (Nat.mul_le_mul_left extra h)
      _ = extra := Nat.mul_div_cancel extra hS

/-- The loop-state invariant of `Box::layout_main_axis`: every child size
sits between its minimum and its natural size (the in-loop
`ASSERT(ch_sz[i] <= ch_psz[i].nat)`). -/
def SzInv (st : List (SizeReq × Nat × Nat)) : Prop :=
  ∀ c ∈ st, c.1.min ≤ c.2.2 ∧ c.2.2 ≤ c.1.nat

/-- The main-axis size sum of a loop state. -/
def msum (st : List (SizeReq × Nat × Nat)) : Nat :=
  (st.map (fun c => c.2.2)).sum

lemma flexDistribute_inv (extra S : Nat) (st : List (SizeReq × Nat × Nat))
    (h : SzInv st) : SzInv (flexDistribute extra S st).1 := by
  rw [flexDistribute_eq]
  intro c hc
  obtain ⟨a, ha, rfl⟩ := List.mem_map.1 hc
  obtain ⟨h1, h2⟩ := h a ha
  have h3 : takenOf extra S a ≤ a.1.nat - a.2.2 := Nat.min_le_right _ _
  dsimp only
  omega

lemma flexDistribute_pairs (extra S : Nat)
    (st : List (SizeReq × Nat × Nat)) :
    ((flexDistribute extra S st).1).map (fun c => (c.1, c.2.1)) =
      st.map (fun c => (c.1, c.2.1)) := by
  rw [flexDistribute_eq]
  simp [List.map_map]

lemma flexDistribute_msum (extra : Nat) (st : List (SizeReq × Nat × Nat)) :
    msum (flexDistribute extra (sumFlexUnsat st) st).1 +
      (flexDistribute extra (sumFlexUnsat st) st).2 ≤ msum st + extra := by
  set S := sumFlexUnsat st with hS
  rw [flexDistribute_eq]
  dsimp only
  have h1 : msum (st.map (fun c => (c.1, c.2.1, c.2.2 + takenOf extra S c))) =
      msum st + (st.map (takenOf extra S)).sum := by
    unfold msum
    rw [List.map_map]
    have h2 : st.map ((fun c => c.2.2) ∘
        (fun c => (c.1, c.2.1, c.2.2 + takenOf extra S c))) =
        st.map (fun c => c.2.2 + takenOf extra S c) := rfl
    rw [h2, sum_map_add]
  have h3 : (st.map (fun c => cheOf extra S c - takenOf extra S c)).sum +
      (st.map (takenOf extra S)).sum = (st.map (cheOf extra S)).sum :=
    sum_sub_add st _ _ (fun c _ => Nat.min_le_left _ _)
  have h4 : (st.map (cheOf extra S)).sum ≤ extra :=
    sum_che_le extra S st (le_of_eq (sumFlexUnsat_eq st).symm)
  omega

lemma flexDistribute_rem_lt (extra : Nat) (st : List (SizeReq × Nat × Nat))
    (hinv : SzInv st) (hpos : 0 < extra) :
    (flexDistribute extra (sumFlexUnsat st) st).2 < extra := by
  set S := sumFlexUnsat st with hS
  rw [flexDistribute_eq]
  by_cases hall : ∀ c ∈ st, takenOf extra S c = 0
  · have hche : ∀ c ∈ st, cheOf extra S c = 0 := by
      intro c hc
      have ht := hall c hc
      rcases Nat.min_eq_zero_iff.1 ht with h0 | h0
      · exact h0
      · have h2 := (hinv c hc).2
        have h3 : ¬ c.2.2 < c.1.nat := by omega
        simp [cheOf, efgOf, h3]
    have hz : (st.map (fun c => cheOf extra S c - takenOf extra S c)).sum = 0 := by
      apply List.sum_eq_zero
      intro x hx
      obtain ⟨a, ha, rfl⟩ := List.mem_map.1 hx
      simp [hche a ha, hall a ha]
    omega
  · push_neg at hall
    obtain ⟨c0, hc0, ht0⟩ := hall
    have h3 : (st.map (fun c => cheOf extra S c - takenOf extra S c)).sum +
        (st.map (takenOf extra S)).sum = (st.map (cheOf extra S)).sum :=
      sum_sub_add st _ _ (fun c _ => Nat.min_le_left _ _)
    have h4 : (st.map (cheOf extra S)).sum ≤ extra :=
      sum_che_le extra S st (le_of_eq (sumFlexUnsat_eq st).symm)
    have h5 : takenOf extra S c0 ≤ (st.map (takenOf extra S)).sum :=
      List.single_le_sum (fun x _ => Nat.zero_le x) _
        (List.mem_map_of_mem (takenOf extra S) hc0)
    omega

/-! ## Properties of the flex loop -/

lemma flexLoop_invariants (fuel : Nat) :
    ∀ (st : List (SizeReq × Nat × Nat)) (extra : Nat), SzInv st →
      SzInv (flexLoop fuel st extra).1 ∧
      ((flexLoop fuel st extra).1).map (fun c => (c.1, c.2.1)) =
        st.map (fun c => (c.1, c.2.1)) ∧
      msum (flexLoop fuel st extra).1 + (flexLoop fuel st extra).2 ≤
        msum st + extra := by
  induction fuel with
  | zero => intro st extra h; exact ⟨h, rfl, le_refl _⟩
  | succ f ih =>
      intro st extra h
      show SzInv (flexLoop (f + 1) st extra).1 ∧ _
      rw [flexLoop]
      by_cases he : extra = 0
      · simp only [he, if_pos rfl]
        exact ⟨h, rfl, le_refl _⟩
      · simp only [if_neg he]
        by_cases hs : sumFlexUnsat st = 0
        · simp only [hs, if_pos rfl]
          exact ⟨h, rfl, le_refl _⟩
        · simp only [if_neg hs]
          have hinv2 := flexDistribute_inv extra (sumFlexUnsat st) st h
          obtain ⟨i1, i2, i3⟩ :=
            ih (flexDistribute extra (sumFlexUnsat st) st).1
              (flexDistribute extra (sumFlexUnsat st) st).2 hinv2
          refine ⟨i1, ?_, ?_⟩
          · rw [i2, flexDistribute_pairs]
          · have hm := flexDistribute_msum extra st
            omega

lemma flexLoop_exit (fuel : Nat) :
    ∀ (st : List (SizeReq × Nat × Nat)) (extra : Nat), SzInv st →
      extra < fuel →
      (flexLoop fuel st extra).2 = 0 ∨
        sumFlexUnsat (flexLoop fuel st extra).1 = 0 := by
  induction fuel with
  | zero => intro st extra _ hf; omega
  | succ f ih =>
      intro st extra h hf
      rw [flexLoop]
      by_cases he : extra = 0
      · simp only [he, if_pos rfl]
        exact Or.inl rfl
      · simp only [if_neg he]
        by_cases hs : sumFlexUnsat st = 0
        · simp only [hs, if_pos rfl]
          exact Or.inr hs
        · simp only [if_neg hs]
          have hrem := flexDistribute_rem_lt extra st h (Nat.pos_of_ne_zero he)
          exact ih _ _ (flexDistribute_inv extra (sumFlexUnsat st) st h)
            (by omega)

lemma flexLoop_fuel_irrel (f1 : Nat) :
    ∀ (f2 : Nat) (st : List (SizeReq × Nat × Nat)) (extra : Nat), SzInv st →
      extra < f1 → extra < f2 → flexLoop f1 st extra = flexLoop f2 st extra := by
  induction f1 with
  | zero => intro f2 st extra _ hf _; omega
  | succ f ih =>
      intro f2 st extra h hf1 hf2
      match f2 with
      | 0 => omega
      | g + 1 =>
          rw [flexLoop]
          conv_rhs => rw [flexLoop]
          by_cases he : extra = 0
          · rw [if_pos he, if_pos he]
          · rw [if_neg he, if_neg he]
            by_cases hs : sumFlexUnsat st = 0
            · rw [if_pos hs, if_pos hs]
            · rw [if_neg hs, if_neg hs]
              have hrem := flexDistribute_rem_lt extra st h
                (Nat.pos_of_ne_zero he)
              exact ih g _ _
                (flexDistribute_inv extra (sumFlexUnsat st) st h)
                (by omega) (by omega)

lemma flexLoop_pairs (fuel : Nat) :
    ∀ (st : List (SizeReq × Nat × Nat)) (extra : Nat),
      ((flexLoop fuel st extra).1).map (fun c => (c.1, c.2.1)) =
        st.map (fun c => (c.1, c.2.1)) := by
  induction fuel with
  | zero => intro st extra; rfl
  | succ f ih =>
      intro st extra
      rw [flexLoop]
      by_cases he : extra = 0
      · rw [if_pos he]
      · rw [if_neg he]
        by_cases hs : sumFlexUnsat st = 0
        · rw [if_pos hs]
        · rw [if_neg hs]
          rw [ih, flexDistribute_pairs]

lemma map_getElem_eq {α β : Type} (f : α → β) {l1 l2 : List α}
    (hmap : l1.map f = l2.map f) (i : Nat) (h1 : i < l1.length)
    (h2 : i < l2.length) : f l1[i] = f l2[i] := by
  have b1 : i < (l1.map f).length := by simpa using h1
  have h3 := List.getElem_of_eq hmap b1
  simpa [List.getElem_map] using h3

lemma flexLoop_length (fuel : Nat) (st : List (SizeReq × Nat × Nat))
    (extra : Nat) : (flexLoop fuel st extra).1.length = st.length := by
  have h := congrArg List.length (flexLoop_pairs fuel st extra)
  simpa using h

/-! ## Pointwise bounds for the resolved main-axis sizes -/

lemma initState_inv (ch : List (SizeReq × Nat))
    (h : ∀ c ∈ ch, c.1.min ≤ c.1.nat) :
    SzInv (ch.map (fun c => (c.1, c.2, c.1.min))) := by
  intro c hc
  obtain ⟨a, ha, rfl⟩ := List.mem_map.1 hc
  exact ⟨le_refl _, h a ha⟩

lemma layout_main_axis_length (ch : List (SizeReq × Nat)) (main_sz : Nat) :
    (layout_main_axis ch main_sz).length = ch.length := by
  unfold layout_main_axis layoutMainAxisRun
  simp [flexLoop_length]

lemma layout_main_axis_bounds (ch : List (SizeReq × Nat)) (main_sz : Nat)
    (h : ∀ c ∈ ch, c.1.min ≤ c.1.nat) (i : Nat) (hi : i < ch.length)
    (hi2 : i < (layout_main_axis ch main_sz).length) :
    ch[i].1.min ≤ (layout_main_axis ch main_sz)[i] ∧
      (layout_main_axis ch main_sz)[i] ≤ ch[i].1.nat := by
  have hinv0 := initState_inv ch h
  obtain ⟨hinv, hpairs, _⟩ :=
    flexLoop_invariants (main_sz - sumMin ch + 1)
      (ch.map (fun c => (c.1, c.2, c.1.min))) (main_sz - sumMin ch) hinv0
  set st0 := ch.map (fun c => (c.1, c.2, c.1.min)) with hst0
  set r := flexLoop (main_sz - sumMin ch + 1) st0 (main_sz - sumMin ch) with hr
  have hlen0 : i < st0.length := by rw [hst0]; simpa using hi
  have hlen : i < r.1.length := by
    rw [hr, flexLoop_length]
    exact hlen0
  have hmem : r.1[i] ∈ r.1 := List.getElem_mem hlen
  obtain ⟨hb1, hb2⟩ := hinv _ hmem
  have hfst : (r.1[i].1, r.1[i].2.1) = (st0[i].1, st0[i].2.1) := by
    have := map_getElem_eq (fun c => (c.1, c.2.1)) hpairs i hlen hlen0
    simpa using this
  have hfst2 : st0[i].1 = ch[i].1 := by
    simp [hst0, List.getElem_map]
  have hval : (layout_main_axis ch main_sz)[i] = r.1[i].2.2 := by
    show (layout_main_axis ch main_sz)[i] = r.1[i].2.2
    unfold layout_main_axis layoutMainAxisRun
    simp [List.getElem_map, hr, hst0]
  have hkey : r.1[i].1 = ch[i].1 := by
    have := congrArg Prod.fst hfst
    simpa [hfst2] using this
  rw [hval, ← hkey]
  exact ⟨hb1, hb2⟩

lemma layout_main_axis_sum_le (ch : List (SizeReq × Nat)) (main_sz : Nat)
    (h : ∀ c ∈ ch, c.1.min ≤ c.1.nat) (hbudget : sumMin ch ≤ main_sz) :
    (layout_main_axis ch main_sz).sum ≤ main_sz := by
  have hinv0 := initState_inv ch h
  obtain ⟨_, _, hmsum⟩ :=
    flexLoop_invariants (main_sz - sumMin ch + 1)
      (ch.map (fun c => (c.1, c.2, c.1.min))) (main_sz - sumMin ch) hinv0
  have h1 : (layout_main_axis ch main_sz).sum =
      msum (layoutMainAxisRun ch main_sz).1 := rfl
  have h2 : msum (ch.map (fun c => (c.1, c.2, c.1.min))) = sumMin ch := by
    unfold msum sumMin
    rw [List.map_map]
    rfl
  have h3 : layoutMainAxisRun ch main_sz =
      flexLoop (main_sz - sumMin ch + 1)
        (ch.map (fun c => (c.1, c.2, c.1.min))) (main_sz - sumMin ch) := rfl
  rw [h1, h3]
  omega

/-! ## The cross-axis distribution as a per-child formula -/

lemma layout_cross_axis_eq (ai : Align) (ch : List (SizeReq × Align))
    (cross_sz : Nat) :
    layout_cross_axis ai ch cross_sz =
      ch.map (fun c =>
        if c.2 = Align.STRETCH ∨ ai = Align.STRETCH then cross_sz
        else Nat.min (Nat.max c.1.min cross_sz) c.1.nat) := by
  induction ch with
  | nil => rfl
  | cons c rest ih => simp [layout_cross_axis, ih]

lemma layout_cross_axis_length (ai : Align) (ch : List (SizeReq × Align))
    (cross_sz : Nat) :
    (layout_cross_axis ai ch cross_sz).length = ch.length := by
  rw [layout_cross_axis_eq]; simp

lemma layout_cross_axis_ge_min (ai : Align) (ch : List (SizeReq × Align))
    (cross_sz : Nat) (hmn : ∀ c ∈ ch, c.1.min ≤ c.1.nat)
    (hcr : ∀ c ∈ ch, c.1.min ≤ cross_sz) (i : Nat) (hi : i < ch.length)
    (hi2 : i < (layout_cross_axis ai ch cross_sz).length) :
    ch[i].1.min ≤ (layout_cross_axis ai ch cross_sz)[i] := by
  have hv : (layout_cross_axis ai ch cross_sz)[i] =
      (if ch[i].2 = Align.STRETCH ∨ ai = Align.STRETCH then cross_sz
       else Nat.min (Nat.max ch[i].1.min cross_sz) ch[i].1.nat) := by
    have hb : i < (ch.map (fun c =>
        if c.2 = Align.STRETCH ∨ ai = Align.STRETCH then cross_sz
        else Nat.min (Nat.max c.1.min cross_sz) c.1.nat)).length := by
      simpa using hi
    have := List.getElem_of_eq (layout_cross_axis_eq ai ch cross_sz) hi2
    simpa [List.getElem_map] using this
  have hmem : ch[i] ∈ ch := List.getElem_mem hi
  have h1 := hmn _ hmem
  have h2 := hcr _ hmem
  rw [hv]
  split
  · exact h2
  · have h3 : ch[i].1.min ≤ Nat.max ch[i].1.min cross_sz := Nat.le_max_left _ _
    exact Nat.le_min.2 ⟨h3, h1⟩

/-! ## Aggregation lemmas -/

/-- The summing combinator of `aggSR` on the main axis. -/
def gsumSR (r c : SizeReq) : SizeReq := ⟨r.min + c.min, r.nat + c.nat⟩

/-- The maximising combinator of `aggSR` on the cross axis. -/
def gmaxSR (r c : SizeReq) : SizeReq :=
  ⟨Nat.max r.min c.min, Nat.max r.nat c.nat⟩

lemma aggSR_true_foldl (l : List SizeReq) :
    aggSR true l = l.foldl gsumSR ⟨0, 0⟩ := rfl

lemma aggSR_false_foldl (l : List SizeReq) :
    aggSR false l = l.foldl gmaxSR ⟨0, 0⟩ := rfl

lemma foldl_gsum (l : List SizeReq) :
    ∀ init : SizeReq, l.foldl gsumSR init =
      ⟨init.min + (l.map SizeReq.min).sum, init.nat + (l.map SizeReq.nat).sum⟩ := by
  induction l with
  | nil => intro init; cases init; simp
  | cons c rest ih =>
      intro init
      rw [List.foldl_cons, ih]
      simp only [List.map_cons, List.sum_cons, gsumSR, SizeReq.mk.injEq]
      omega

lemma aggSR_true_eq (l : List SizeReq) :
    aggSR true l = ⟨(l.map SizeReq.min).sum, (l.map SizeReq.nat).sum⟩ := by
  rw [aggSR_true_foldl, foldl_gsum]
  simp

lemma foldl_gmax_init_le (l : List SizeReq) :
    ∀ init : SizeReq, init.min ≤ (l.foldl gmaxSR init).min ∧
      init.nat ≤ (l.foldl gmaxSR init).nat := by
  induction l with
  | nil => intro init; exact ⟨le_refl _, le_refl _⟩
  | cons c rest ih =>
      intro init
      rw [List.foldl_cons]
      obtain ⟨h1, h2⟩ := ih (gmaxSR init c)
      exact ⟨le_trans (Nat.le_max_left _ _) h1, le_trans (Nat.le_max_left _ _) h2⟩

lemma foldl_gmax_mem_le (l : List SizeReq) :
    ∀ (init : SizeReq) (s : SizeReq), s ∈ l →
      s.min ≤ (l.foldl gmaxSR init).min ∧ s.nat ≤ (l.foldl gmaxSR init).nat := by
  induction l with
  | nil => intro _ s hs; cases hs
  | cons c rest ih =>
      intro init s hs
      rw [List.foldl_cons]
      rcases List.mem_cons.1 hs with rfl | hs2
      · obtain ⟨h1, h2⟩ := foldl_gmax_init_le rest (gmaxSR init s)
        exact ⟨le_trans (Nat.le_max_right _ _) h1,
               le_trans (Nat.le_max_right _ _) h2⟩
      · exact ih (gmaxSR init c) s hs2

lemma aggSR_false_ge (l : List SizeReq) (s : SizeReq) (hs : s ∈ l) :
    s.min ≤ (aggSR false l).min ∧ s.nat ≤ (aggSR false l).nat := by
  rw [aggSR_false_foldl]
  exact foldl_gmax_mem_le l ⟨0, 0⟩ s hs

lemma foldl_max_mem_le {α : Type} (f : α → Nat) (l : List α) :
    ∀ (init : Nat) (x : α), x ∈ l →
      f x ≤ l.foldl (fun n c => Nat.max n (f c)) init := by
  induction l with
  | nil => intro _ x hx; cases hx
  | cons c rest ih =>
      intro init x hx
      rw [List.foldl_cons]
      rcases List.mem_cons.1 hx with rfl | hx2
      · have h1 : f x ≤ Nat.max init (f x) := Nat.le_max_right _ _
        have h2 : ∀ (l2 : List α) (i1 i2 : Nat), i1 ≤ i2 →
            l2.foldl (fun n c => Nat.max n (f c)) i1 ≤
              l2.foldl (fun n c => Nat.max n (f c)) i2 := by
          intro l2
          induction l2 with
          | nil => intro i1 i2 h; exact h
          | cons d rest2 ih2 =>
              intro i1 i2 h
              rw [List.foldl_cons, List.foldl_cons]
              exact ih2 _ _ (max_le_max h (le_refl (f d)))
        calc f x ≤ Nat.max init (f x) := h1
          _ ≤ rest.foldl (fun n c => Nat.max n (f c)) (Nat.max init (f x)) := by
              have h3 : ∀ (l2 : List α) (i : Nat),
                  i ≤ l2.foldl (fun n c => Nat.max n (f c)) i := by
                intro l2
                induction l2 with
                | nil => intro i; exact le_refl i
                | cons d rest2 ih2 =>
                    intro i
                    rw [List.foldl_cons]
                    exact le_trans (Nat.le_max_left _ _) (ih2 _)
              exact h3 rest _
      · exact ih (Nat.max init (f c)) x hx2

/-! ## Track-layout lemmas -/

lemma layout_track_length (tracks : List (SizeReq × Nat)) (sr : SizeReq)
    (size : Nat) : (layout_track tracks sr size).length = tracks.length := by
  unfold layout_track
  simp

lemma layout_track_getElem (tracks : List (SizeReq × Nat)) (sr : SizeReq)
    (size : Nat) (i : Nat) (hi : i < tracks.length)
    (hi2 : i < (layout_track tracks sr size).length) :
    (layout_track tracks sr size)[i] =
      tracks[i].1.min +
        (if (tracks.map (fun t => t.2)).sum = 0 then 0
         else (size - sr.min) * tracks[i].2 / (tracks.map (fun t => t.2)).sum) := by
  unfold layout_track
  simp [List.getElem_map]

lemma layout_track_ge_min (tracks : List (SizeReq × Nat)) (sr : SizeReq)
    (size : Nat) (i : Nat) (hi : i < tracks.length)
    (hi2 : i < (layout_track tracks sr size).length) :
    tracks[i].1.min ≤ (layout_track tracks sr size)[i] := by
  rw [layout_track_getElem tracks sr size i hi hi2]
  exact Nat.le_add_right _ _

/-! ## Grid track-aggregation lemmas -/

lemma bumpTrack_length (c : SizeReq) (ts : List SizeReq) :
    ∀ n, (bumpTrack c ts n).length = ts.length := by
  induction ts with
  | nil => intro n; rfl
  | cons t rest ih =>
      intro n
      cases n with
      | zero => rfl
      | succ m => simp [bumpTrack, ih m]

lemma bumpTrack_getElem (c : SizeReq) (ts : List SizeReq) :
    ∀ (n j : Nat) (hj : j < ts.length) (hj2 : j < (bumpTrack c ts n).length),
      (bumpTrack c ts n)[j] =
        if n = j then ⟨Nat.max ts[j].min c.min, Nat.max ts[j].nat c.nat⟩
        else ts[j] := by
  induction ts with
  | nil => intro n j hj _; simp at hj
  | cons t rest ih =>
      intro n j hj hj2
      cases n with
      | zero =>
          cases j with
          | zero => rfl
          | succ k => simp [bumpTrack]
      | succ m =>
          cases j with
          | zero => simp [bumpTrack]
          | succ k =>
              have hk : k < rest.length := by simpa using hj
              have hk2 : k < (bumpTrack c rest m).length := by
                rw [bumpTrack_length]; exact hk
              have := ih m k hk hk2
              simp [bumpTrack, this, Nat.succ_inj]

lemma aggTracks_cons (msr : GridChild → SizeReq) (idx : GridChild → Nat)
    (tracks : List SizeReq) (c : GridChild) (rest : List GridChild) :
    aggTracks msr idx tracks (c :: rest) =
      aggTracks msr idx
        (if c.span = (1, 1) then bumpTrack (msr c) tracks (idx c) else tracks)
        rest := rfl

lemma aggTracks_length (msr : GridChild → SizeReq) (idx : GridChild → Nat) :
    ∀ (cs : List GridChild) (tracks : List SizeReq),
      (aggTracks msr idx tracks cs).length = tracks.length := by
  intro cs
  induction cs with
  | nil => intro tracks; rfl
  | cons c rest ih =>
      intro tracks
      rw [aggTracks_cons, ih]
      split
      · rw [bumpTrack_length]
      · rfl

/-- The running maximum a single track accumulates over the child list:
only children with span `(1,1)` sitting on track `j` contribute, via
componentwise max. -/
def trackFoldSR (j : Nat) (msr : GridChild → SizeReq) (idx : GridChild → Nat)
    (init : SizeReq) (cs : List GridChild) : SizeReq :=
  cs.foldl
    (fun acc c =>
      if c.span = (1, 1) ∧ idx c = j then
        ⟨Nat.max acc.min (msr c).min, Nat.max acc.nat (msr c).nat⟩
      else acc)
    init

lemma aggTracks_getElem (msr : GridChild → SizeReq) (idx : GridChild → Nat) :
    ∀ (cs : List GridChild) (tracks : List SizeReq) (j : Nat)
      (hj : j < tracks.length) (hj2 : j < (aggTracks msr idx tracks cs).length),
      (aggTracks msr idx tracks cs)[j] = trackFoldSR j msr idx tracks[j] cs := by
  intro cs
  induction cs with
  | nil => intro tracks j hj hj2; rfl
  | cons c rest ih =>
      intro tracks j hj hj2
      by_cases hspan : c.span = (1, 1)
      · have hcons : aggTracks msr idx tracks (c :: rest) =
            aggTracks msr idx (bumpTrack (msr c) tracks (idx c)) rest := by
          rw [aggTracks_cons, if_pos hspan]
        have hjb : j < (bumpTrack (msr c) tracks (idx c)).length := by
          rw [bumpTrack_length]; exact hj
        have hjb2 : j <
            (aggTracks msr idx (bumpTrack (msr c) tracks (idx c)) rest).length := by
          rw [aggTracks_length, bumpTrack_length]; exact hj
        have heq := List.getElem_of_eq hcons hj2
        rw [heq, ih (bumpTrack (msr c) tracks (idx c)) j hjb hjb2]
        rw [bumpTrack_getElem (msr c) tracks (idx c) j hj hjb]
        by_cases hidx : idx c = j
        · rw [if_pos hidx]
          have hfold : trackFoldSR j msr idx tracks[j] (c :: rest) =
              trackFoldSR j msr idx
                ⟨Nat.max tracks[j].min (msr c).min,
                 Nat.max tracks[j].nat (msr c).nat⟩ rest := by
            unfold trackFoldSR
            rw [List.foldl_cons, if_pos ⟨hspan, hidx⟩]
          rw [hfold]
        · rw [if_neg hidx]
          have hfold : trackFoldSR j msr idx tracks[j] (c :: rest) =
              trackFoldSR j msr idx tracks[j] rest := by
            unfold trackFoldSR
            rw [List.foldl_cons, if_neg (by tauto)]
          rw [hfold]
      · have hcons : aggTracks msr idx tracks (c :: rest) =
            aggTracks msr idx tracks rest := by
          rw [aggTracks_cons, if_neg hspan]
        have hjb2 : j < (aggTracks msr idx tracks rest).length := by
          rw [aggTracks_length]; exact hj
        have heq := List.getElem_of_eq hcons hj2
        rw [heq, ih tracks j hj hjb2]
        have hfold : trackFoldSR j msr idx tracks[j] (c :: rest) =
            trackFoldSR j msr idx tracks[j] rest := by
          unfold trackFoldSR
          rw [List.foldl_cons, if_neg (by tauto)]
        rw [hfold]

lemma aggTracks_filter (msr : GridChild → SizeReq) (idx : GridChild → Nat) :
    ∀ (cs : List GridChild) (tracks : List SizeReq),
      aggTracks msr idx tracks cs =
        aggTracks msr idx tracks
          (cs.filter (fun c => decide (c.span = (1, 1)))) := by
  intro cs
  induction cs with
  | nil => intro tracks; rfl
  | cons c rest ih =>
      intro tracks
      by_cases hspan : c.span = (1, 1)
      · rw [aggTracks_cons, if_pos hspan]
        rw [List.filter_cons_of_pos (by simpa using hspan)]
        rw [aggTracks_cons, if_pos hspan]
        exact ih _
      · rw [aggTracks_cons, if_neg hspan]
        rw [List.filter_cons_of_neg (by simpa using hspan)]
        exact ih _

lemma trackFoldSR_init_le (j : Nat) (msr : GridChild → SizeReq)
    (idx : GridChild → Nat) (cs : List GridChild) :
    ∀ init : SizeReq, init.min ≤ (trackFoldSR j msr idx init cs).min ∧
      init.nat ≤ (trackFoldSR j msr idx init cs).nat := by
  induction cs with
  | nil => intro init; exact ⟨le_refl _, le_refl _⟩
  | cons c rest ih =>
      intro init
      unfold trackFoldSR
      rw [List.foldl_cons]
      by_cases hc : c.span = (1, 1) ∧ idx c = j
      · rw [if_pos hc]
        obtain ⟨h1, h2⟩ := ih ⟨Nat.max init.min (msr c).min,
                               Nat.max init.nat (msr c).nat⟩
        exact ⟨le_trans (Nat.le_max_left _ _) h1,
               le_trans (Nat.le_max_left _ _) h2⟩
      · rw [if_neg hc]
        exact ih init

lemma trackFoldSR_mem_le (j : Nat) (msr : GridChild → SizeReq)
    (idx : GridChild → Nat) (cs : List GridChild) :
    ∀ (init : SizeReq) (c : GridChild), c ∈ cs → c.span = (1, 1) →
      idx c = j →
      (msr c).min ≤ (trackFoldSR j msr idx init cs).min ∧
        (msr c).nat ≤ (trackFoldSR j msr idx init cs).nat := by
  induction cs with
  | nil => intro _ c hc; cases hc
  | cons d rest ih =>
      intro init c hc hspan hidx
      unfold trackFoldSR
      rw [List.foldl_cons]
      rcases List.mem_cons.1 hc with rfl | hc2
      · rw [if_pos ⟨hspan, hidx⟩]
        obtain ⟨h1, h2⟩ := trackFoldSR_init_le j msr idx rest
          ⟨Nat.max init.min (msr c).min, Nat.max init.nat (msr c).nat⟩
        exact ⟨le_trans (Nat.le_max_right _ _) h1,
               le_trans (Nat.le_max_right _ _) h2⟩
      · by_cases hd : d.span = (1, 1) ∧ idx d = j
        · rw [if_pos hd]
          exact ih _ c hc2 hspan hidx
        · rw [if_neg hd]
          exact ih init c hc2 hspan hidx

lemma spanSum_one (sizes : List Nat) :
    ∀ (j : Nat) (hj : j < sizes.length), spanSum sizes j 1 = sizes[j] := by
  induction sizes with
  | nil => intro j hj; simp at hj
  | cons s rest ih =>
      intro j hj
      cases j with
      | zero => simp [spanSum]
      | succ k =>
          have hk : k < rest.length := by simpa using hj
          have := ih k hk
          simp only [spanSum, List.drop_succ_cons] at this ⊢
          simpa using this

/-! ## Per-container minimum-respecting allocation lemmas -/

lemma stack_child_ge (c : StackChild) (rgw rgh : Nat)
    (h1 : c.sr_horz.min ≤ c.sr_horz.nat)
    (h2 : ∀ pw, (c.sr_vert_at pw).min ≤ (c.sr_vert_at pw).nat) :
    c.sr_horz.min ≤ (stackChildSize c rgw rgh).1 ∧
      (c.sr_vert_at (stackChildSize c rgw rgh).1).min ≤
        (stackChildSize c rgw rgh).2 := by
  unfold stackChildSize
  constructor
  · exact Nat.le_min.2 ⟨Nat.le_max_left _ _, h1⟩
  · exact Nat.le_min.2 ⟨Nat.le_max_left _ _, h2 _⟩

lemma box_child_ge (horz : Bool) (ai : Align) (cs : List BoxChild) (w h : Nat)
    (hm : ∀ c ∈ cs, c.sr_horz.min ≤ c.sr_horz.nat)
    (hv : ∀ c ∈ cs, ∀ pw, (c.sr_vert_at pw).min ≤ (c.sr_vert_at pw).nat)
    (hw : (boxPref horz ai cs Direction.HORZ 0).min ≤ w)
    (hh : (boxPref horz ai cs Direction.VERT w).min ≤ h)
    (i : Nat) (h1 : i < cs.length)
    (h2 : i < (boxWidths horz ai cs w).length)
    (h3 : i < (boxHeights horz ai cs h (boxWidths horz ai cs w)).length) :
    cs[i].sr_horz.min ≤ (boxWidths horz ai cs w)[i] ∧
      (cs[i].sr_vert_at ((boxWidths horz ai cs w)[i])).min ≤
        (boxHeights horz ai cs h (boxWidths horz ai cs w))[i] := by
  cases horz with
  | true =>
      have hm2 : ∀ p ∈ cs.map (fun c => (c.sr_horz, c.flex_grow)),
          p.1.min ≤ p.1.nat := by
        intro p hp
        obtain ⟨a, ha, rfl⟩ := List.mem_map.1 hp
        exact hm a ha
      have hlen1 : i < (cs.map (fun c => (c.sr_horz, c.flex_grow))).length := by
        simpa using h1
      have h2a : i < (layout_main_axis
          (cs.map (fun c => (c.sr_horz, c.flex_grow))) w).length := h2
      have hb := layout_main_axis_bounds
        (cs.map (fun c => (c.sr_horz, c.flex_grow))) w hm2 i hlen1 h2a
      have hix : (cs.map (fun c => (c.sr_horz, c.flex_grow)))[i] =
          (cs[i].sr_horz, cs[i].flex_grow) := by
        simp [List.getElem_map]
      rw [hix] at hb
      refine ⟨hb.1, ?_⟩
      · -- heights for a horizontal box come from the cross-axis routine
        have hcwlen : (boxWidths true ai cs w).length = cs.length := by
          show (layout_main_axis
            (cs.map (fun c => (c.sr_horz, c.flex_grow))) w).length = cs.length
          rw [layout_main_axis_length]
          simp
        have hprlen : (List.zipWith (fun c wid => (c.sr_vert_at wid, c.align_self))
            cs (boxWidths true ai cs w)).length = cs.length := by
          rw [List.length_zipWith, hcwlen]
          omega
        have hmn : ∀ p ∈ List.zipWith (fun c wid => (c.sr_vert_at wid, c.align_self))
            cs (boxWidths true ai cs w), p.1.min ≤ p.1.nat := by
          intro p hp
          rw [List.mem_iff_getElem] at hp
          obtain ⟨k, hk, rfl⟩ := hp
          have hk1 : k < cs.length := by omega
          have hk2 : k < (boxWidths true ai cs w).length := by omega
          rw [List.getElem_zipWith]
          exact hv cs[k] (List.getElem_mem hk1) _
        have hcr : ∀ p ∈ List.zipWith (fun c wid => (c.sr_vert_at wid, c.align_self))
            cs (boxWidths true ai cs w), p.1.min ≤ h := by
          intro p hp
          rw [List.mem_iff_getElem] at hp
          obtain ⟨k, hk, rfl⟩ := hp
          have hk1 : k < cs.length := by omega
          have hk2 : k < (boxWidths true ai cs w).length := by omega
          rw [List.getElem_zipWith]
          have hv1 : k < (boxVertSRs cs (boxWidths true ai cs w)).length := by
            unfold boxVertSRs
            rw [List.length_zipWith]
            omega
          have hvix : (boxVertSRs cs (boxWidths true ai cs w))[k] =
              cs[k].sr_vert_at ((boxWidths true ai cs w)[k]) := by
            unfold boxVertSRs
            rw [List.getElem_zipWith]
          have hmem : cs[k].sr_vert_at ((boxWidths true ai cs w)[k]) ∈
              boxVertSRs cs (boxWidths true ai cs w) := by
            rw [← hvix]
            exact List.getElem_mem hv1
          have hagg := (aggSR_false_ge _ _ hmem).1
          have hpr : (boxPref true ai cs Direction.VERT w).min =
              (aggSR false (boxVertSRs cs (boxWidths true ai cs w))).min := rfl
          calc (cs[k].sr_vert_at ((boxWidths true ai cs w)[k])).min
              ≤ (aggSR false (boxVertSRs cs (boxWidths true ai cs w))).min := hagg
            _ ≤ h := by rw [← hpr]; exact hh
        have h3a : i < (layout_cross_axis ai
            (List.zipWith (fun c wid => (c.sr_vert_at wid, c.align_self))
              cs (boxWidths true ai cs w)) h).length := h3
        have hcl := layout_cross_axis_ge_min ai _ h hmn hcr i
          (by rw [hprlen]; exact h1) h3a
        have hpx : (List.zipWith (fun c wid => (c.sr_vert_at wid, c.align_self))
            cs (boxWidths true ai cs w))[i] =
            (cs[i].sr_vert_at ((boxWidths true ai cs w)[i]), cs[i].align_self) := by
          rw [List.getElem_zipWith]
        rw [hpx] at hcl
        exact hcl
  | false =>
      -- widths come from the cross-axis routine, heights from the main axis
      have hmn : ∀ p ∈ cs.map (fun c => (c.sr_horz, c.align_self)),
          p.1.min ≤ p.1.nat := by
        intro p hp
        obtain ⟨a, ha, rfl⟩ := List.mem_map.1 hp
        exact hm a ha
      have hcr : ∀ p ∈ cs.map (fun c => (c.sr_horz, c.align_self)),
          p.1.min ≤ w := by
        intro p hp
        obtain ⟨a, ha, rfl⟩ := List.mem_map.1 hp
        have hmem : a.sr_horz ∈ cs.map (fun c => c.sr_horz) :=
          List.mem_map_of_mem _ ha
        have hagg := (aggSR_false_ge _ _ hmem).1
        have hpr : (boxPref false ai cs Direction.HORZ 0).min =
            (aggSR false (cs.map (fun c => c.sr_horz))).min := rfl
        calc a.sr_horz.min ≤ (aggSR false (cs.map (fun c => c.sr_horz))).min := hagg
          _ ≤ w := by rw [← hpr]; exact hw
      have h2a : i < (layout_cross_axis ai
          (cs.map (fun c => (c.sr_horz, c.align_self))) w).length := h2
      have hcl := layout_cross_axis_ge_min ai _ w hmn hcr i
        (by simpa using h1) h2a
      have hlen1 : i < (cs.map (fun c => (c.sr_horz, c.align_self))).length := by
        simpa using h1
      have hix : (cs.map (fun c => (c.sr_horz, c.align_self)))[i] =
          (cs[i].sr_horz, cs[i].align_self) := by
        simp [List.getElem_map]
      rw [hix] at hcl
      refine ⟨hcl, ?_⟩
      · have hcwlen : (boxWidths false ai cs w).length = cs.length := by
          show (layout_cross_axis ai
            (cs.map (fun c => (c.sr_horz, c.align_self))) w).length = cs.length
          rw [layout_cross_axis_length]
          simp
        have hm2 : ∀ p ∈ List.zipWith (fun c wid => (c.sr_vert_at wid, c.flex_grow))
            cs (boxWidths false ai cs w), p.1.min ≤ p.1.nat := by
          intro p hp
          rw [List.mem_iff_getElem] at hp
          obtain ⟨k, hk, rfl⟩ := hp
          have hk1 : k < cs.length := by
            rw [List.length_zipWith] at hk
            omega
          have hk2 : k < (boxWidths false ai cs w).length := by
            rw [List.length_zipWith] at hk
            omega
          rw [List.getElem_zipWith]
          exact hv cs[k] (List.getElem_mem hk1) _
        have hzlen : (List.zipWith (fun c wid => (c.sr_vert_at wid, c.flex_grow))
            cs (boxWidths false ai cs w)).length = cs.length := by
          rw [List.length_zipWith, hcwlen]
          omega
        have h3a : i < (layout_main_axis
            (List.zipWith (fun c wid => (c.sr_vert_at wid, c.flex_grow))
              cs (boxWidths false ai cs w)) h).length := h3
        have hb := layout_main_axis_bounds _ h hm2 i (by rw [hzlen]; exact h1) h3a
        have hpx : (List.zipWith (fun c wid => (c.sr_vert_at wid, c.flex_grow))
            cs (boxWidths false ai cs w))[i] =
            (cs[i].sr_vert_at ((boxWidths false ai cs w)[i]), cs[i].flex_grow) := by
          rw [List.getElem_zipWith]
        rw [hpx] at hb
        exact hb.1

lemma n_cols_mem_le (cs : List GridChild) (c : GridChild) (hc : c ∈ cs) :
    c.pos.1 + c.span.1 ≤ n_cols cs :=
  foldl_max_mem_le (fun c => c.pos.1 + c.span.1) cs 0 c hc

lemma n_rows_mem_le (cs : List GridChild) (c : GridChild) (hc : c ∈ cs) :
    c.pos.2 + c.span.2 ≤ n_rows cs :=
  foldl_max_mem_le (fun c => c.pos.2 + c.span.2) cs 0 c hc

lemma agg_track_mem_le (msr : GridChild → SizeReq) (idx : GridChild → Nat)
    (cs : List GridChild) (n : Nat) (c : GridChild) (hc : c ∈ cs)
    (hspan : c.span = (1, 1)) (hj : idx c < n)
    (hj2 : idx c < (aggTracks msr idx (List.replicate n ⟨0, 0⟩) cs).length) :
    (msr c).min ≤ (aggTracks msr idx (List.replicate n ⟨0, 0⟩) cs)[idx c].min ∧
      (msr c).nat ≤ (aggTracks msr idx (List.replicate n ⟨0, 0⟩) cs)[idx c].nat := by
  have hjr : idx c < (List.replicate n (⟨0, 0⟩ : SizeReq)).length := by
    simpa using hj
  rw [aggTracks_getElem msr idx cs _ (idx c) hjr hj2]
  exact trackFoldSR_mem_le (idx c) msr idx cs _ c hc hspan rfl

lemma track_pipe_ge (agg : List SizeReq) (flex : List Nat) (sr : SizeReq)
    (size : Nat) (hlen : flex.length = agg.length) (j : Nat)
    (hj : j < agg.length)
    (hj2 : j < (layout_track (agg.zip flex) sr size).length) :
    agg[j].min ≤ (layout_track (agg.zip flex) sr size)[j] := by
  have hjz : j < (agg.zip flex).length := by
    rw [List.length_zip]
    omega
  have hg := layout_track_ge_min (agg.zip flex) sr size j hjz hj2
  have hz : (agg.zip flex)[j] = (agg[j], flex[j]) := by
    rw [List.getElem_zip]
  rw [hz] at hg
  exact hg

lemma grid_cell_ge (cs : List GridChild) (colFlex rowFlex : List Nat)
    (w h : Nat) (hcf : colFlex.length = n_cols cs)
    (hrf : rowFlex.length = n_rows cs) (c : GridChild) (hc : c ∈ cs)
    (hspan : c.span = (1, 1)) :
    c.sr_horz.min ≤ gridCellW cs colFlex w c ∧
      (c.sr_vert_at (gridCellW cs colFlex w c)).min ≤
        gridCellH cs colFlex rowFlex w h c := by
  have hs1 : c.span.1 = 1 := congrArg Prod.fst hspan
  have hs2 : c.span.2 = 1 := congrArg Prod.snd hspan
  have hp1 : c.pos.1 < n_cols cs := by
    have := n_cols_mem_le cs c hc
    omega
  have hp2 : c.pos.2 < n_rows cs := by
    have := n_rows_mem_le cs c hc
    omega
  have hcolagg_len : (gridColAgg cs).length = n_cols cs := by
    unfold gridColAgg compute_track_sizereqs
    rw [aggTracks_length]
    simp
  have hcolsz_len : (gridColSizes cs colFlex w).length = n_cols cs := by
    unfold gridColSizes
    rw [layout_track_length, List.length_zip, hcolagg_len, hcf]
    omega
  have hrowagg_len : (gridRowAgg cs colFlex w).length = n_rows cs := by
    unfold gridRowAgg compute_track_sizereqs
    rw [aggTracks_length]
    simp
  have hrowsz_len : (gridRowSizes cs colFlex rowFlex w h).length = n_rows cs := by
    unfold gridRowSizes
    rw [layout_track_length, List.length_zip, hrowagg_len, hrf]
    omega
  have hcellW : gridCellW cs colFlex w c = (gridColSizes cs colFlex w)[c.pos.1] := by
    unfold gridCellW
    rw [hs1]
    exact spanSum_one _ c.pos.1 (by rw [hcolsz_len]; exact hp1)
  have hcellH : gridCellH cs colFlex rowFlex w h c =
      (gridRowSizes cs colFlex rowFlex w h)[c.pos.2] := by
    unfold gridCellH
    rw [hs2]
    exact spanSum_one _ c.pos.2 (by rw [hrowsz_len]; exact hp2)
  have hcolpipe : (gridColAgg cs)[c.pos.1].min ≤ (gridColSizes cs colFlex w)[c.pos.1] := by
    have := track_pipe_ge (gridColAgg cs) colFlex (gridWsr cs) w
      (by rw [hcf, hcolagg_len]) c.pos.1 (by rw [hcolagg_len]; exact hp1)
      (by show c.pos.1 < (gridColSizes cs colFlex w).length
          rw [hcolsz_len]; exact hp1)
    exact this
  have hrowpipe : (gridRowAgg cs colFlex w)[c.pos.2].min ≤
      (gridRowSizes cs colFlex rowFlex w h)[c.pos.2] := by
    have := track_pipe_ge (gridRowAgg cs colFlex w) rowFlex (gridHsr cs colFlex w) h
      (by rw [hrf, hrowagg_len]) c.pos.2 (by rw [hrowagg_len]; exact hp2)
      (by show c.pos.2 < (gridRowSizes cs colFlex rowFlex w h).length
          rw [hrowsz_len]; exact hp2)
    exact this
  have hcolagg : c.sr_horz.min ≤ (gridColAgg cs)[c.pos.1].min := by
    have := agg_track_mem_le
      (fun c => c.sr_horz) (fun c => c.pos.1) cs (n_cols cs) c hc hspan hp1
      (by show c.pos.1 < (gridColAgg cs).length
          rw [hcolagg_len]; exact hp1)
    exact this.1
  have hrowagg : (c.sr_vert_at (gridCellW cs colFlex w c)).min ≤
      (gridRowAgg cs colFlex w)[c.pos.2].min := by
    have := agg_track_mem_le
      (fun c => c.sr_vert_at (spanSum (gridColSizes cs colFlex w) c.pos.1 c.span.1))
      (fun c => c.pos.2) cs (n_rows cs) c hc hspan hp2
      (by show c.pos.2 < (gridRowAgg cs colFlex w).length
          rw [hrowagg_len]; exact hp2)
    exact this.1
  constructor
  · rw [hcellW]
    exact le_trans hcolagg hcolpipe
  · rw [hcellH]
    exact le_trans hrowagg hrowpipe

/-! ## Per-index form of the cross-axis distribution -/

lemma layout_cross_axis_getElem (ai : Align) (ch : List (SizeReq × Align))
    (cross_sz : Nat) (i : Nat) (hi : i < ch.length)
    (hi2 : i < (layout_cross_axis ai ch cross_sz).length) :
    (layout_cross_axis ai ch cross_sz)[i] =
      if ch[i].2 = Align.STRETCH ∨ ai = Align.STRETCH then cross_sz
      else Nat.min (Nat.max ch[i].1.min cross_sz) ch[i].1.nat := by
  have hb : i < (ch.map (fun c =>
      if c.2 = Align.STRETCH ∨ ai = Align.STRETCH then cross_sz
      else Nat.min (Nat.max c.1.min cross_sz) c.1.nat)).length := by
    simpa using hi
  have h := List.getElem_of_eq (layout_cross_axis_eq ai ch cross_sz) hi2
  simpa [List.getElem_map] using h

/-! ## The margin bookkeeping of `Widget::get_preferred_size` -/

/-- The margins added to both SizeReq fields for an axis:
`margin[1-dim] + margin[3-dim]`, i.e. right+left horizontally and
top+bottom vertically. -/
def Widget.margins_for (wg : Widget) : Direction → Nat
  | Direction.HORZ => wg.margin1 + wg.margin3
  | Direction.VERT => wg.margin0 + wg.margin2

/-- The prospective width actually handed to the measurement hook:
`prosp_width = dim ? prosp_width - margin[1] - margin[3] : prosp_width`. -/
def Widget.adjusted_pw (wg : Widget) (dim : Direction) (prosp_width : Int) :
    Int :=
  match dim with
  | Direction.HORZ => prosp_width
  | Direction.VERT => prosp_width - (wg.margin1 : Int) - (wg.margin3 : Int)

/-- C8 (amended): on a cache miss, the SizeReq computed by
`Widget::get_preferred_size` satisfies `min ≤ nat` — through margin
addition, the expand/shrink adjustment and the final clamp of `nat` to the
`0xffffff` sentinel — provided the margin-inclusive minimum does not exceed
that sentinel ceiling. (Without the proviso, the final clamp can push `nat`
below `min`; see the counterexample.) -/
theorem C8_min_le_nat_amended (wg : Widget) (dim : Direction) (pw : Int)
    (hvh : dim = Direction.HORZ → wg.cached_sr_valid_h = false)
    (hvv : dim = Direction.VERT → wg.cached_sr_valid_v = false)
    (hmn : (wg.hook dim (wg.adjusted_pw dim pw)).min ≤
      (wg.hook dim (wg.adjusted_pw dim pw)).nat)
    (hceil : (wg.hook dim (wg.adjusted_pw dim pw)).min + wg.margins_for dim ≤
      ui_expand_sz) :
    ((wg.get_preferred_size dim pw).1).min ≤
      ((wg.get_preferred_size dim pw).1).nat := by
  cases dim with
  | HORZ =>
      have hv := hvh rfl
      simp only [Widget.adjusted_pw, Widget.margins_for] at hmn hceil
      unfold Widget.get_preferred_size
      simp only [hv, Bool.false_and, Bool.false_eq_true, if_neg, ite_false]
      split
      · dsimp only
        exact Nat.le_min.2 ⟨by omega, hceil⟩
      · split
        · dsimp only
          exact Nat.le_min.2 ⟨by omega, hceil⟩
        · dsimp only
          exact Nat.le_min.2 ⟨by omega, hceil⟩
  | VERT =>
      have hv := hvv rfl
      simp only [Widget.adjusted_pw, Widget.margins_for] at hmn hceil
      unfold Widget.get_preferred_size
      simp only [hv, Bool.false_and, Bool.false_eq_true, if_neg, ite_false]
      split
      · dsimp only
        exact Nat.le_min.2 ⟨by omega, hceil⟩
      · split
        · dsimp only
          exact Nat.le_min.2 ⟨by omega, hceil⟩
        · dsimp only
          exact Nat.le_min.2 ⟨by omega, hceil⟩

/-- A leaf widget whose measurement hook reports a minimum above the
`0xffffff` sentinel (no margins, no expand/shrink, empty cache). -/
def hugeWidget : Widget :=
  { margin0 := 0, margin1 := 0, margin2 := 0, margin3 := 0,
    flex_grow := 0, align_self := Align.UNSET,
    expand_h := false, expand_v := false, shrink_h := false, shrink_v := false,
    cached_sr_valid_h := false, cached_sr_valid_v := false,
    cached_sr_h := ⟨0, 0⟩, cached_sr_v := ⟨0, 0⟩, cached_sr_pw := 0,
    m_region := ⟨0, 0, 0, 0⟩,
    hook := fun _ _ => ⟨16777216, 16777216⟩ }

/-- C8 counterexample: a hook returning `min = nat = 0x1000000` passes the
`ASSERT(ret.min <= ret.nat)` (which runs before the clamp), but the final
`ret.nat = min(ret.nat, 0xffffff)` pushes `nat` below `min`, so the returned
SizeReq violates `min ≤ nat`. -/
theorem C8_min_le_nat_sentinel_violation :
    ((hugeWidget.get_preferred_size Direction.HORZ (-1)).1).min = 16777216 ∧
    ((hugeWidget.get_preferred_size Direction.HORZ (-1)).1).nat = 16777215 ∧
    ¬ ((hugeWidget.get_preferred_size Direction.HORZ (-1)).1).min ≤
        ((hugeWidget.get_preferred_size Direction.HORZ (-1)).1).nat := by
  decide

/-- A witness widget for C8: hook `{2, 7}`, one unit of margin on every
side, empty cache. -/
def plainWidget : Widget :=
  { margin0 := 1, margin1 := 1, margin2 := 1, margin3 := 1,
    flex_grow := 0, align_self := Align.UNSET,
    expand_h := false, expand_v := false, shrink_h := false, shrink_v := false,
    cached_sr_valid_h := false, cached_sr_valid_v := false,
    cached_sr_h := ⟨0, 0⟩, cached_sr_v := ⟨0, 0⟩, cached_sr_pw := 0,
    m_region := ⟨0, 0, 0, 0⟩,
    hook := fun _ _ => ⟨2, 7⟩ }

theorem C8_min_le_nat_amended_witness :
    ((plainWidget.get_preferred_size Direction.VERT 10).1).min ≤
      ((plainWidget.get_preferred_size Direction.VERT 10).1).nat :=
  C8_min_le_nat_amended plainWidget Direction.VERT 10
    (by intro h; cases h) (by intro _; rfl) (by decide) (by decide)

/-- A leaf widget with one unit of left and one unit of right margin and a
width-sensitive vertical measurement hook (height-for-width `{0, w}`). -/
def cacheBugWidget : Widget :=
  { margin0 := 0, margin1 := 1, margin2 := 0, margin3 := 1,
    flex_grow := 0, align_self := Align.UNSET,
    expand_h := false, expand_v := false, shrink_h := false, shrink_v := false,
    cached_sr_valid_h := false, cached_sr_valid_v := false,
    cached_sr_h := ⟨0, 0⟩, cached_sr_v := ⟨0, 0⟩, cached_sr_pw := 0,
    m_region := ⟨0, 0, 0, 0⟩,
    hook := fun _ pw => ⟨0, pw.toNat⟩ }

/-- C1 (code bug): `Widget::get_preferred_size` stores the margin-adjusted
prospective width as the vertical cache key (`prosp_width` is reassigned on
line 68 before the store on line 91) but compares the key against the
unadjusted call argument (line 65). With left+right margins 1+1, a first
call `get_preferred_size(VERT, 10)` computes at content width 8 and stores
key 8, so: the cache is valid yet its key is 8 ≠ 10 (an immediate repeat of
the same call misses the cache and recomputes, against the claim that it is
served unchanged from the cache), and a call with prospective width 8
wrongly hits the cache, returning `{0, 8}` — the value computed for content
width 8 — where a fresh widget measured at prospective width 8 returns
`{0, 6}` (content width 6). -/
theorem C1_cache_key_mismatch :
    ((cacheBugWidget.get_preferred_size Direction.VERT 10).2).cached_sr_valid_v
        = true ∧
    ((cacheBugWidget.get_preferred_size Direction.VERT 10).2).cached_sr_pw = 8 ∧
    (((cacheBugWidget.get_preferred_size Direction.VERT 10).2).get_preferred_size
        Direction.VERT 8).1 = ⟨0, 8⟩ ∧
    (cacheBugWidget.get_preferred_size Direction.VERT 8).1 = ⟨0, 6⟩ := by
  decide

/-! ## The root driver's layout pass -/

/-- `width = max(sr_horz.min, m_w)` in `UIRoot::layout`. -/
def UIRoot.layout_width (r : UIRoot) : Int :=
  max (((r.m_root.get_preferred_size Direction.HORZ (-1)).1.min : Nat) : Int)
    r.m_w

/-- `height = max(sr_vert.min, m_h)` in `UIRoot::layout`, with the vertical
request measured at the already resolved width. -/
def UIRoot.layout_height (r : UIRoot) : Int :=
  max ((((r.m_root.get_preferred_size Direction.HORZ (-1)).2.get_preferred_size
    Direction.VERT r.layout_width).1.min : Nat) : Int) r.m_h

/-- The root widget after the two measurement calls of `UIRoot::layout`
(cache state threaded through both). -/
def UIRoot.measured_root (r : UIRoot) : Widget :=
  ((r.m_root.get_preferred_size Direction.HORZ (-1)).2.get_preferred_size
    Direction.VERT r.layout_width).2

/-- C7: a layout request while the dirty flag is clear is a no-op; while
dirty it computes `width = max(root horizontal min, viewport width)` and
`height = max(root vertical min at that width, viewport height)`, allocates
the root at `{0,0,width,height}`, and clears the flag; consequently the
layout state after any call is clean and an immediately repeated call does
no work, so two consecutive requests perform the measurement and allocation
work exactly once. -/
theorem C7_root_layout_once (r : UIRoot) :
    (r.m_dirty = false → r.layout = (r, false)) ∧
    (r.layout).1.m_dirty = false ∧
    (r.layout).1.layout = ((r.layout).1, false) ∧
    (r.m_dirty = true →
      (r.layout).2 = true ∧
      (r.layout).1.m_root =
        r.measured_root.allocate_region ⟨0, 0, r.layout_width, r.layout_height⟩ ∧
      (r.layout).1.m_region = ⟨0, 0, r.layout_width, r.layout_height⟩ ∧
      (r.layout).1.m_w = r.m_w ∧ (r.layout).1.m_h = r.m_h) := by
  have hclean : ∀ s : UIRoot, s.m_dirty = false → s.layout = (s, false) := by
    intro s hs
    unfold UIRoot.layout
    rw [if_pos hs]
  have hflag : (r.layout).1.m_dirty = false := by
    by_cases hd : r.m_dirty = false
    · rw [hclean r hd]
      exact hd
    · unfold UIRoot.layout
      rw [if_neg hd]
  refine ⟨hclean r, hflag, hclean _ hflag, ?_⟩
  intro hd
  have hd2 : ¬ r.m_dirty = false := by simp [hd]
  unfold UIRoot.layout
  rw [if_neg hd2]
  refine ⟨rfl, rfl, rfl, rfl, rfl⟩

/-- A dirty driver over a simple root widget, for the C7 witness. -/
def testUIRoot : UIRoot :=
  { m_w := 10, m_h := 7, m_region := ⟨0, 0, 0, 0⟩,
    m_root := plainWidget, m_dirty := true }

theorem C7_root_layout_once_witness :
    (testUIRoot.layout).2 = true ∧ (testUIRoot.layout).1.m_dirty = false ∧
      (testUIRoot.layout).1.layout = ((testUIRoot.layout).1, false) ∧
      (testUIRoot.layout).1.m_region =
        ⟨0, 0, testUIRoot.layout_width, testUIRoot.layout_height⟩ :=
  ⟨((C7_root_layout_once testUIRoot).2.2.2 rfl).1,
   (C7_root_layout_once testUIRoot).2.1,
   (C7_root_layout_once testUIRoot).2.2.1,
   ((C7_root_layout_once testUIRoot).2.2.2 rfl).2.2.1⟩

/-! ## Claims about the pure layout algorithms -/

/-- A Grid child at cell (0,0) spanning two columns and one row, with
horizontal minimum 10. -/
def wideGridChild : GridChild :=
  ⟨⟨10, 10⟩, fun _ => ⟨5, 5⟩, (0, 0), (2, 1)⟩

/-- C2 counterexample: a Grid child spanning two columns contributes nothing
to the column aggregation, so the grid reports `w_sr = {0,0}`; a layout pass
offering width 0 is then legal (it meets the grid's reported minimum and
every assertion passes), yet the cell rectangle handed to the child's
`allocate_region` has width 0, below the child's reported horizontal minimum
of 10 — refuting "every child's assigned extent is at least its reported
minimum" for Grid. -/
theorem C2_grid_multispan_below_min :
    gridWsr [wideGridChild] = ⟨0, 0⟩ ∧
    gridCellW [wideGridChild] [0, 0] 0 wideGridChild = 0 ∧
    wideGridChild.sr_horz.min = 10 ∧
    ¬ wideGridChild.sr_horz.min ≤ gridCellW [wideGridChild] [0, 0] 0 wideGridChild := by
  decide

/-- C2 (amended): after a layout pass whose budgets meet the container's own
reported minimums, every Box child's assigned main and cross extents, every
Stack child's assigned width and height, and the cell extents of every Grid
child spanning a single cell `(1,1)` — in any grid, multi-span siblings
included — are at least the `min` of the SizeReq the child reported for
that axis at the assigned cross dimension. (Only the Grid children that
themselves span more than one track are excluded: they do not contribute to
track aggregation and can be allocated below their minimum, see the
counterexample.) -/
theorem C2_assigned_at_least_min_amended :
    (∀ (horz : Bool) (ai : Align) (cs : List BoxChild) (w h : Nat),
        (∀ c ∈ cs, c.sr_horz.min ≤ c.sr_horz.nat) →
        (∀ c ∈ cs, ∀ pw, (c.sr_vert_at pw).min ≤ (c.sr_vert_at pw).nat) →
        (boxPref horz ai cs Direction.HORZ 0).min ≤ w →
        (boxPref horz ai cs Direction.VERT w).min ≤ h →
        ∀ (i : Nat) (h1 : i < cs.length)
          (h2 : i < (boxWidths horz ai cs w).length)
          (h3 : i < (boxHeights horz ai cs h (boxWidths horz ai cs w)).length),
          cs[i].sr_horz.min ≤ (boxWidths horz ai cs w)[i] ∧
            (cs[i].sr_vert_at ((boxWidths horz ai cs w)[i])).min ≤
              (boxHeights horz ai cs h (boxWidths horz ai cs w))[i]) ∧
    (∀ (c : StackChild) (rgw rgh : Nat),
        c.sr_horz.min ≤ c.sr_horz.nat →
        (∀ pw, (c.sr_vert_at pw).min ≤ (c.sr_vert_at pw).nat) →
        c.sr_horz.min ≤ (stackChildSize c rgw rgh).1 ∧
          (c.sr_vert_at (stackChildSize c rgw rgh).1).min ≤
            (stackChildSize c rgw rgh).2) ∧
    (∀ (cs : List GridChild) (colFlex rowFlex : List Nat) (w h : Nat),
        colFlex.length = n_cols cs → rowFlex.length = n_rows cs →
        ∀ c ∈ cs, c.span = (1, 1) →
          c.sr_horz.min ≤ gridCellW cs colFlex w c ∧
            (c.sr_vert_at (gridCellW cs colFlex w c)).min ≤
              gridCellH cs colFlex rowFlex w h c) :=
  ⟨box_child_ge,
   stack_child_ge,
   fun cs colFlex rowFlex w h hcf hrf c hc hspan =>
     grid_cell_ge cs colFlex rowFlex w h hcf hrf c hc hspan⟩

/-- A Box child fixture for the C2 witness. -/
def testBoxChild : BoxChild := ⟨1, Align.UNSET, ⟨2, 5⟩, fun _ => ⟨1, 3⟩⟩

/-- A Stack child fixture for the C2 witness. -/
def testStackChild : StackChild := ⟨⟨2, 5⟩, fun _ => ⟨1, 3⟩⟩

/-- A single-span Grid child fixture for the C2 witness. -/
def testGridChild : GridChild := ⟨⟨2, 5⟩, fun _ => ⟨1, 3⟩, (0, 0), (1, 1)⟩

theorem C2_assigned_at_least_min_amended_witness :
    2 ≤ (boxWidths true Align.UNSET [testBoxChild] 10).get ⟨0, by decide⟩ ∧
    2 ≤ (stackChildSize testStackChild 10 10).1 ∧
    2 ≤ gridCellW [wideGridChild, testGridChild] [0, 0] 10 testGridChild := by
  refine ⟨?_, ?_, ?_⟩
  · have h := (C2_assigned_at_least_min_amended.1 true Align.UNSET
      [testBoxChild] 10 10 (by decide)
      (by intro c hc pw
          rw [List.mem_singleton] at hc
          subst hc
          show (1 : Nat) ≤ 3
          decide)
      (by decide) (by decide) 0 (by decide) (by decide) (by decide)).1
    simpa [List.get_eq_getElem, testBoxChild] using h
  · exact (C2_assigned_at_least_min_amended.2.1 testStackChild 10 10 (by decide)
      (by intro pw
          show (1 : Nat) ≤ 3
          decide)).1
  · exact (C2_assigned_at_least_min_amended.2.2 [wideGridChild, testGridChild]
      [0, 0] [0] 10 10 (by decide) (by decide) testGridChild
      (List.mem_cons_of_mem wideGridChild (List.mem_singleton.mpr rfl))
      (by decide)).1

/-- C3 counterexample: two children with minimum 0, natural 10 and
`flex_grow` 1 under budget 1. The single round computes
`ch_extra = 1 * 1 / 2 = 0` for each child, so nothing is taken, the
remainder is 0 and the loop exits with the sizes summing to 0 < 1 — even
though children with positive `flex_grow` are still below their natural
sizes (the final unsaturated flex sum is nonzero), refuting the claimed
equality condition. -/
theorem C3_rounding_drops_leftover :
    layout_main_axis [(⟨0, 10⟩, 1), (⟨0, 10⟩, 1)] 1 = [0, 0] ∧
    (layout_main_axis [(⟨0, 10⟩, 1), (⟨0, 10⟩, 1)] 1).sum ≠ 1 ∧
    sumFlexUnsat (layoutMainAxisRun [(⟨0, 10⟩, 1), (⟨0, 10⟩, 1)] 1).1 ≠ 0 := by
  decide

/-- C3 (amended): the sum of the children's assigned main-axis extents never
exceeds the box's main-axis budget, and in the concrete example — minimums
[10,20,30], `flex_grow` [1,0,1], naturals [100,20,100], budget 100 — the
final sizes are [30,20,50]: they sum to exactly 100 and the middle child
(flex 0) stays at 20. Equality in general can fail even when a positive-flex
child is below its natural size, because each round hands out only the
floored proportional shares and drops the division residue (see the
counterexample). -/
theorem C3_box_main_sum_amended :
    (∀ (ch : List (SizeReq × Nat)) (main_sz : Nat),
        (∀ c ∈ ch, c.1.min ≤ c.1.nat) → sumMin ch ≤ main_sz →
        (layout_main_axis ch main_sz).sum ≤ main_sz) ∧
    layout_main_axis [(⟨10, 100⟩, 1), (⟨20, 20⟩, 0), (⟨30, 100⟩, 1)] 100 =
      [30, 20, 50] :=
  ⟨layout_main_axis_sum_le, by decide⟩

theorem C3_box_main_sum_amended_witness :
    (layout_main_axis [(⟨1, 2⟩, 1), (⟨3, 8⟩, 2)] 9).sum ≤ 9 :=
  C3_box_main_sum_amended.1 [(⟨1, 2⟩, 1), (⟨3, 8⟩, 2)] 9 (by decide) (by decide)

/-- C4 counterexample: a child with `align_self = CENTER` (non-inherit,
non-stretch) in a container with `align_items = STRETCH` receives the full
cross budget 20 — the code's `align_self == STRETCH ? true :
align_items == STRETCH` consults `align_items` even when `align_self` is not
inherit — whereas the claimed resolution (non-inherit `align_self` used
as-is) prescribes `clamp(5, 20, 10) = 10`. -/
theorem C4_align_items_stretch_overrides :
    layout_cross_axis Align.STRETCH [(⟨5, 10⟩, Align.CENTER)] 20 = [20] ∧
    Nat.min (Nat.max 5 20) 10 = 10 ∧ (20 : Nat) ≠ 10 := by
  decide

/-- C4 (amended): in `Box::layout_cross_axis` a child receives the full
cross budget exactly when its own `align_self` is stretch OR the container's
`align_items` is stretch — a stretch `align_items` overrides even a
non-inherit, non-stretch `align_self` for sizing purposes — and every other
child receives `min(max(child.min, budget), child.nat)`. -/
theorem C4_cross_axis_amended (ai : Align) (ch : List (SizeReq × Align))
    (cross_sz : Nat) (i : Nat) (h1 : i < ch.length)
    (h2 : i < (layout_cross_axis ai ch cross_sz).length) :
    (ch[i].2 = Align.STRETCH ∨ ai = Align.STRETCH →
      (layout_cross_axis ai ch cross_sz)[i] = cross_sz) ∧
    (¬ (ch[i].2 = Align.STRETCH ∨ ai = Align.STRETCH) →
      (layout_cross_axis ai ch cross_sz)[i] =
        Nat.min (Nat.max ch[i].1.min cross_sz) ch[i].1.nat) := by
  have hv := layout_cross_axis_getElem ai ch cross_sz i h1 h2
  constructor
  · intro hcond
    rw [hv, if_pos hcond]
  · intro hncond
    rw [hv, if_neg hncond]

theorem C4_cross_axis_amended_witness :
    (layout_cross_axis Align.UNSET [(⟨5, 12⟩, Align.CENTER)] 20).get
      ⟨0, by decide⟩ = 12 := by
  have h := (C4_cross_axis_amended Align.UNSET [(⟨5, 12⟩, Align.CENTER)] 20 0
    (by decide) (by decide)).2 (by decide)
  simpa [List.get_eq_getElem] using h

/-- A Grid child occupying one column but two rows, for the C5
counterexample. -/
def multiRowChild : GridChild :=
  ⟨⟨10, 10⟩, fun _ => ⟨7, 7⟩, (0, 0), (1, 2)⟩

/-- A Grid child at cell (1,0) spanning two columns, from the claim's
concrete example. -/
def spanTwoChild : GridChild := ⟨⟨9, 9⟩, fun _ => ⟨1, 1⟩, (1, 0), (2, 1)⟩

/-- A single-span Grid child occupying column 1. -/
def singleSpanChild : GridChild := ⟨⟨3, 4⟩, fun _ => ⟨1, 1⟩, (1, 0), (1, 1)⟩

/-- C5 counterexample: a child spanning exactly one column (span `(1,2)`:
one column, two rows) contributes nothing to the column aggregation — the
code gates the update on `cs[0] == 1 && cs[1] == 1`, i.e. single span on
BOTH axes — so the column track stays `{0,0}` although the child, spanning
exactly one track on that axis, reported minimum 10. This refutes the
per-axis reading "a child spanning exactly one track on that axis updates
that track's min and nat". -/
theorem C5_single_col_multirow_ignored :
    multiRowChild.span.1 = 1 ∧
    gridColAgg [multiRowChild] = [⟨0, 0⟩] ∧
    multiRowChild.sr_horz.min = 10 := by
  decide

/-- C5 (amended): in `Grid::compute_track_sizereqs`, only children spanning
exactly one track on BOTH axes (span `(1,1)`) contribute — the aggregation
is unchanged by filtering out every other child — and each track's
aggregated SizeReq is exactly the running componentwise maximum, starting
from `{0,0}`, of the measured requests of the span-`(1,1)` children sitting
on it; in particular the child at cell (1,0) with span (2,1) does not
influence column-track 1 even when a single-span child also occupies
column 1. -/
theorem C5_track_aggregation_amended :
    (∀ (dim : Direction) (colSizes : List Nat) (cs : List GridChild) (n : Nat),
        compute_track_sizereqs dim colSizes cs n =
          compute_track_sizereqs dim colSizes
            (cs.filter (fun c => decide (c.span = (1, 1)))) n) ∧
    (∀ (dim : Direction) (colSizes : List Nat) (cs : List GridChild)
        (n j : Nat) (hj : j < n)
        (hj2 : j < (compute_track_sizereqs dim colSizes cs n).length),
        (compute_track_sizereqs dim colSizes cs n)[j] =
          trackFoldSR j (trackMsr dim colSizes) (trackIdx dim) ⟨0, 0⟩ cs) ∧
    gridColAgg [spanTwoChild, singleSpanChild] = [⟨0, 0⟩, ⟨3, 4⟩, ⟨0, 0⟩] := by
  refine ⟨?_, ?_, by decide⟩
  · intro dim colSizes cs n
    unfold compute_track_sizereqs
    exact aggTracks_filter _ _ cs _
  · intro dim colSizes cs n j hj hj2
    have hjr : j < (List.replicate n (⟨0, 0⟩ : SizeReq)).length := by
      simpa using hj
    have h := aggTracks_getElem (trackMsr dim colSizes) (trackIdx dim)
      cs (List.replicate n ⟨0, 0⟩) j hjr hj2
    rw [List.getElem_replicate] at h
    exact h

theorem C5_track_aggregation_amended_witness :
    (compute_track_sizereqs Direction.HORZ [] [spanTwoChild, singleSpanChild]
      3).get ⟨1, by decide⟩ =
      trackFoldSR 1 (trackMsr Direction.HORZ []) (trackIdx Direction.HORZ)
        ⟨0, 0⟩ [spanTwoChild, singleSpanChild] := by
  have h := C5_track_aggregation_amended.2.1 Direction.HORZ []
    [spanTwoChild, singleSpanChild] 3 1 (by decide) (by decide)
  simpa [List.get_eq_getElem] using h

/-- C6: `Grid::layout_track` distributes in a single uncapped pass — with a
budget at least the total minimum and a positive flex sum, each track
resolves to `min + (budget − Σmin) × flex / Σflex` (float arithmetic
truncated, i.e. floor) — and a track can be grown past its own natural size
(a lone track with request `{0,5}`, flex 1 and budget 10 resolves to 10),
unlike Box children, which `Box::layout_main_axis` never grows past their
natural size. -/
theorem C6_layout_track_single_pass :
    (∀ (tracks : List (SizeReq × Nat)) (sr : SizeReq) (size : Nat) (i : Nat)
        (hS : (tracks.map (fun t => t.2)).sum ≠ 0) (hi : i < tracks.length)
        (hi2 : i < (layout_track tracks sr size).length),
        (layout_track tracks sr size)[i] =
          tracks[i].1.min +
            (size - sr.min) * tracks[i].2 / (tracks.map (fun t => t.2)).sum) ∧
    (layout_track [(⟨0, 5⟩, 1)] ⟨0, 5⟩ 10 = [10] ∧ (⟨0, 5⟩ : SizeReq).nat < 10) ∧
    (∀ (ch : List (SizeReq × Nat)) (main_sz : Nat),
        (∀ c ∈ ch, c.1.min ≤ c.1.nat) →
        ∀ (i : Nat) (h1 : i < ch.length)
          (h2 : i < (layout_main_axis ch main_sz).length),
        (layout_main_axis ch main_sz)[i] ≤ ch[i].1.nat) := by
  refine ⟨?_, by decide, ?_⟩
  · intro tracks sr size i hS hi hi2
    rw [layout_track_getElem tracks sr size i hi hi2, if_neg hS]
  · intro ch main_sz hm i h1 h2
    exact (layout_main_axis_bounds ch main_sz hm i h1 h2).2

theorem C6_layout_track_single_pass_witness :
    (layout_track [(⟨2, 9⟩, 1), (⟨3, 9⟩, 3)] ⟨5, 18⟩ 13).get ⟨0, by decide⟩ =
      2 + (13 - 5) * 1 / 4 ∧
    (layout_main_axis [(⟨0, 10⟩, 1)] 25).get ⟨0, by decide⟩ ≤ 10 := by
  constructor
  · have h := C6_layout_track_single_pass.1 [(⟨2, 9⟩, 1), (⟨3, 9⟩, 3)] ⟨5, 18⟩
      13 0 (by decide) (by decide) (by decide)
    simpa [List.get_eq_getElem] using h
  · have h := C6_layout_track_single_pass.2.2 [(⟨0, 10⟩, 1)] 25 (by decide) 0
      (by decide) (by decide)
    simpa [List.get_eq_getElem] using h

/-- C9: for any child list with `min ≤ nat` and a budget at least the sum of
minimums, the flex-grow distribution loop of `Box::layout_main_axis`
genuinely terminates through its own guards — the final state has leftover 0
or no unsaturated child with positive `flex_grow` — a distribution round
never increases the leftover, and granting the loop any number of extra
rounds leaves the result unchanged. -/
theorem C9_flex_loop_terminates :
    (∀ (ch : List (SizeReq × Nat)) (main_sz : Nat),
        (∀ c ∈ ch, c.1.min ≤ c.1.nat) → sumMin ch ≤ main_sz →
        ((layoutMainAxisRun ch main_sz).2 = 0 ∨
          sumFlexUnsat (layoutMainAxisRun ch main_sz).1 = 0)) ∧
    (∀ (st : List (SizeReq × Nat × Nat)) (extra : Nat),
        (flexDistribute extra (sumFlexUnsat st) st).2 ≤ extra) ∧
    (∀ (ch : List (SizeReq × Nat)) (main_sz k : Nat),
        (∀ c ∈ ch, c.1.min ≤ c.1.nat) →
        flexLoop (main_sz - sumMin ch + 1 + k)
            (ch.map (fun c => (c.1, c.2, c.1.min))) (main_sz - sumMin ch) =
          layoutMainAxisRun ch main_sz) := by
  refine ⟨?_, ?_, ?_⟩
  · intro ch main_sz hm _
    have h := flexLoop_exit (main_sz - sumMin ch + 1)
      (ch.map (fun c => (c.1, c.2, c.1.min))) (main_sz - sumMin ch)
      (initState_inv ch hm) (by omega)
    exact h
  · intro st extra
    set S := sumFlexUnsat st with hS
    rw [flexDistribute_eq]
    have h1 : (st.map (fun c => cheOf extra S c - takenOf extra S c)).sum ≤
        (st.map (cheOf extra S)).sum := by
      apply List.sum_le_sum
      intro c _
      exact Nat.sub_le _ _
    have h2 : (st.map (cheOf extra S)).sum ≤ extra :=
      sum_che_le extra S st (le_of_eq (sumFlexUnsat_eq st).symm)
    exact le_trans h1 h2
  · intro ch main_sz k hm
    exact flexLoop_fuel_irrel (main_sz - sumMin ch + 1 + k)
      (main_sz - sumMin ch + 1) (ch.map (fun c => (c.1, c.2, c.1.min)))
      (main_sz - sumMin ch) (initState_inv ch hm) (by omega) (by omega)

theorem C9_flex_loop_terminates_witness :
    ((layoutMainAxisRun [(⟨0, 10⟩, 1)] 5).2 = 0 ∨
      sumFlexUnsat (layoutMainAxisRun [(⟨0, 10⟩, 1)] 5).1 = 0) ∧
    flexLoop (5 - sumMin [(⟨0, 10⟩, 1)] + 1 + 3)
        ([(⟨0, 10⟩, 1)].map (fun c => (c.1, c.2, c.1.min)))
        (5 - sumMin [(⟨0, 10⟩, 1)]) =
      layoutMainAxisRun [(⟨0, 10⟩, 1)] 5 :=
  ⟨C9_flex_loop_terminates.1 [(⟨0, 10⟩, 1)] 5 (by decide) (by decide),
   C9_flex_loop_terminates.2.2 [(⟨0, 10⟩, 1)] 5 3 (by decide)⟩

/-- C10: when the tracks' flex weights sum to zero, `Grid::layout_track`
takes the guarded branch (`sum_flex_grow > 0 ? extra/sum_flex_grow : 0`, so
the division never runs), every track resolves to exactly its aggregated
minimum, and the track sizes sum to the aggregate minimum — any surplus
budget beyond it stays undistributed. -/
theorem C10_layout_track_zero_flex (tracks : List (SizeReq × Nat))
    (sr : SizeReq) (size : Nat) (hS : (tracks.map (fun t => t.2)).sum = 0)
    (hb : sr.min ≤ size) :
    layout_track tracks sr size = tracks.map (fun t => t.1.min) ∧
      (layout_track tracks sr size).sum = (tracks.map (fun t => t.1.min)).sum := by
  have h1 : layout_track tracks sr size = tracks.map (fun t => t.1.min) := by
    unfold layout_track
    simp [hS]
  exact ⟨h1, congrArg List.sum h1⟩

theorem C10_layout_track_zero_flex_witness :
    layout_track [(⟨2, 5⟩, 0), (⟨4, 4⟩, 0)] ⟨6, 9⟩ 11 = [2, 4] :=
  (C10_layout_track_zero_flex [(⟨2, 5⟩, 0), (⟨4, 4⟩, 0)] ⟨6, 9⟩ 11
    (by decide) (by decide)).1.trans (by decide)

end UI
